import Mathlib

/-!
Verification development for the `dnsbench` package (pkg/dnsbench/benchmark.go).

The Go source is shallowly embedded: pure helpers become Lean functions, the
worker loop of `Benchmark.Run` becomes a step function over explicit schedules
(one entry per innermost loop body), machine integers become `Nat`/`Int`
(`time.Duration` is an `Int` count of nanoseconds, `float64` probability draws
are rationals in `[0,1)`), and fallible code returns `Except`.

External effects are oracles passed as parameters: the HTTP fetch of a
question-source URL, the transport's answer to a dispatched query, the clock
readings, and the pseudo-random streams (the worker-private source `rando` and
the process-global `math/rand` source are separate streams, mirroring lines
415 and 455 of benchmark.go).
-/

deriving instance DecidableEq for Except

namespace Dnsbench

/-! ## DNS message model (the fragment of github.com/miekg/dns used by benchmark.go) -/

/-- A DNS question, mirroring `dns.Question` (Name, Qtype, Qclass). -/
structure DnsQuestion where
  name : String
  qtype : ℕ
  qclass : ℕ
deriving DecidableEq

/-- An EDNS(0) OPT pseudo-RR: the UDP buffer size (stored in the RR header
class in miekg/dns), the DO bit (stored in the TTL), and the list of local
options as (code, data-bytes) pairs (`dns.EDNS0_LOCAL`). -/
structure OptRR where
  udpSize : ℕ
  doBit : Bool
  options : List (ℕ × List ℕ)
deriving DecidableEq

/-- The fragment of `dns.Msg` that `Benchmark.Run` builds and reads: Id,
RecursionDesired, the question section, the Rcode of a response, and the
additional section.  Requests built by the benchmark only ever place OPT
records in the additional section, so `extra` holds `OptRR`s. -/
structure DnsMsg where
  id : ℕ := 0
  recursionDesired : Bool := false
  question : List DnsQuestion := []
  rcode : ℕ := 0
  extra : List OptRR := []
deriving DecidableEq

/-- `(m : dns.Msg).SetEdns0(size, do)`: appends a fresh OPT RR with the given
buffer size and DO bit (and no options) to the additional section. -/
def setEdns0 (m : DnsMsg) (size : ℕ) (doBit : Bool) : DnsMsg :=
  { m with extra := m.extra ++ [{ udpSize := size, doBit := doBit, options := [] }] }

/-- `(m : dns.Msg).IsEdns0()`: scans the additional section from the end for
an OPT RR; since `extra` holds only OPT records here, this is the last one. -/
def isEdns0 (m : DnsMsg) : Option OptRR :=
  m.extra.getLast?

/-- `edns0.SetDo(true)` through the pointer returned by `IsEdns0`: sets the DO
bit on the last OPT RR in place (no-op on a message without OPT). -/
def setDoLast (m : DnsMsg) : DnsMsg :=
  match m.extra.getLast? with
  | none => m
  | some o => { m with extra := m.extra.dropLast ++ [{ o with doBit := true }] }

/-- Appends one local option to the OPT RR returned by `IsEdns0` (the last
one), modelling `o.Option = append(o.Option, &dns.EDNS0_LOCAL{...})`. -/
def appendOptionLast (m : DnsMsg) (code : ℕ) (data : List ℕ) : DnsMsg :=
  match m.extra.getLast? with
  | none => m
  | some o => { m with extra := m.extra.dropLast ++ [{ o with options := o.options ++ [(code, data)] }] }

/-! ## Go standard-library helpers used by benchmark.go -/

/-- Value of a hexadecimal digit, as accepted by Go `encoding/hex`. -/
def hexDigitVal (c : Char) : Option ℕ :=
  if '0' ≤ c ∧ c ≤ '9' then some (c.toNat - 48)
  else if 'a' ≤ c ∧ c ≤ 'f' then some (c.toNat - 87)
  else if 'A' ≤ c ∧ c ≤ 'F' then some (c.toNat - 55)
  else none

/-- Go `hex.DecodeString`: decodes pairs of hex digits left to right, and on a
malformed input (odd length or an invalid digit) returns the bytes decoded
before the error together with `false`; a full decode returns `true`.
benchmark.go checks the error in `init` but ignores it in `addEdnsOpt`, so
both components are needed. -/
def goHexDecode : List Char → List ℕ × Bool
  | [] => ([], true)
  | [_] => ([], false)
  | a :: b :: rest =>
    match hexDigitVal a, hexDigitVal b with
    | some x, some y =>
      let r := goHexDecode rest
      ((16 * x + y) :: r.1, r.2)
    | _, _ => ([], false)

/-- Decimal value of a digit string (most significant first). -/
def digitsToNat (cs : List Char) : ℕ :=
  cs.foldl (fun acc c => 10 * acc + (c.toNat - 48)) 0

/-- Whether Go `strconv.ParseUint(s, 10, 16)` succeeds: a non-empty all-digit
string whose value fits in 16 bits. -/
def goParseUint16Ok (cs : List Char) : Bool :=
  decide (cs ≠ []) && cs.all Char.isDigit && decide (digitsToNat cs < 65536)

/-- The value Go `strconv.ParseUint(s, 10, 16)` returns when its error is
ignored: the parsed value on success, the maximum 16-bit value on range
overflow, and 0 on a syntax error. -/
def goParseUint16 (cs : List Char) : ℕ :=
  if cs ≠ [] ∧ cs.all Char.isDigit then min (digitsToNat cs) 65535 else 0

/-- Go `strings.Split(s, sep)` for a one-character separator, on the
character list of the string. -/
def splitChar (sep : Char) : List Char → List (List Char)
  | [] => [[]]
  | c :: rest =>
    if c = sep then [] :: splitChar sep rest
    else
      match splitChar sep rest with
      | [] => [[c]]
      | g :: gs => (c :: g) :: gs

/-- `isHTTPUrl` (benchmark.go line 622): whether the string starts with
`http://` or `https://`, and the scheme. -/
def isHTTPUrl (s : String) : Bool × String :=
  if s.data.take 7 = "http://".data then (true, "http")
  else if s.data.take 8 = "https://".data then (true, "https")
  else (false, "")

/-- Go `strings.HasPrefix(s, "quic://")`, on character lists. -/
def hasQuicScheme (s : String) : Bool :=
  s.data.take 7 = "quic://".data

/-! ## The delay grammar (`parseRequestDelay`, benchmark.go lines 669-697) -/

/-- Consume a maximal leading run of decimal digits (the greedy `\d+`). -/
def takeDigits : List Char → List Char × List Char
  | [] => ([], [])
  | c :: rest =>
    if c.isDigit then
      let r := takeDigits rest
      (c :: r.1, r.2)
    else ([], c :: rest)

/-- Consume one unit suffix of the regex alternation `(?:ms|ns|[smhdw])`,
two-letter alternatives first (the order the regex tries them in; a
one-letter match can never rescue a failed two-letter match because the
character after a unit must be `-` or the end of the input). -/
def suffixSplit : List Char → Option (String × List Char)
  | 'm' :: 's' :: rest => some ("ms", rest)
  | 'n' :: 's' :: rest => some ("ns", rest)
  | 's' :: rest => some ("s", rest)
  | 'm' :: rest => some ("m", rest)
  | 'h' :: rest => some ("h", rest)
  | 'd' :: rest => some ("d", rest)
  | 'w' :: rest => some ("w", rest)
  | _ => none

/-- Match one `\d+(?:ms|ns|[smhdw])` component, returning the numeric value
of the digits, the unit, and the remaining input. -/
def matchDuration (cs : List Char) : Option (ℕ × String × List Char) :=
  let d := takeDigits cs
  if d.1 = [] then none
  else
    match suffixSplit d.2 with
    | none => none
    | some (u, rest) => some (digitsToNat d.1, u, rest)

/-- Full match of `^(\d+(?:ms|ns|[smhdw]))(?:-(\d+(?:ms|ns|[smhdw])))?$`
(benchmark.go line 673), returning the two captured components
(`none` for an absent second group). -/
def matchDelay (cs : List Char) : Option ((ℕ × String) × Option (ℕ × String)) :=
  match matchDuration cs with
  | none => none
  | some (n1, u1, rest) =>
    match rest with
    | [] => some ((n1, u1), none)
    | '-' :: rest2 =>
      match matchDuration rest2 with
      | some (n2, u2, []) => some ((n1, u1), some (n2, u2))
      | _ => none
    | _ => none

/-- Nanoseconds per unit for Go `time.ParseDuration`.  Go accepts exactly
`ns`, `us` (and the micro-sign spellings), `ms`, `s`, `m`, `h`; in particular
`d` and `w` are not units. -/
def unitNanos (u : String) : Option ℤ :=
  if u = "ns" then some 1
  else if u = "us" then some 1000
  else if u = "ms" then some 1000000
  else if u = "s" then some 1000000000
  else if u = "m" then some 60000000000
  else if u = "h" then some 3600000000000
  else none

/-- Go `time.ParseDuration` on the strings the delay regex can capture (a
run of digits followed by one unit; signs, fractions and multi-component
durations never reach it here): unknown unit or 64-bit overflow is an
error, otherwise the value in nanoseconds. -/
def goParseDuration (n : ℕ) (u : String) : Except String ℤ :=
  match unitNanos u with
  | none => .error "time: unknown unit in duration"
  | some mult =>
    if (n : ℤ) * mult ≤ 9223372036854775807 then .ok ((n : ℤ) * mult)
    else .error "time: invalid duration"

/-- `Benchmark.parseRequestDelay` (benchmark.go lines 669-697) as a function
from the `RequestDelay` string to the pair
(`requestDelayStart`, `requestDelayEnd`) in nanoseconds.  An empty string is
accepted without touching the fields; a non-matching string is an error; the
captured components are re-parsed with `time.ParseDuration`; and when both
parsed values are positive the interval must be strictly increasing.  (The
matched first group is never empty, so the `len(durations[1]) != 0` guard in
the source is always taken.) -/
def parseRequestDelay (s : String) : Except String (ℤ × ℤ) :=
  if s = "" then .ok (0, 0)
  else
    match matchDelay s.data with
    | none => .error "unexpected format, either <GO duration> or <GO duration>-<GO duration> is expected"
    | some ((n1, u1), o2) =>
      match goParseDuration n1 u1 with
      | .error e => .error e
      | .ok d1 =>
        match o2 with
        | none => .ok (d1, 0)
        | some (n2, u2) =>
          match goParseDuration n2 u2 with
          | .error e => .error e
          | .ok d2 =>
            if 0 < d2 ∧ 0 < d1 ∧ d2 - d1 ≤ 0 then
              .error "invalid interval, start should be strictly less than end"
            else .ok (d1, d2)

/-! ## EDNS option validation (benchmark.go lines 271-284) -/

/-- The checks benchmark.go lines 272-283 apply to the halves produced by
`strings.Split`: exactly two halves, the second a hex string Go
`hex.DecodeString` accepts, the first a decimal number fitting `uint16`
(in the source's order of checks). -/
def checkEdnsOptParts : List (List Char) → Except String Unit
  | [code, data] =>
    if (goHexDecode data).2 = false then
      .error "--ednsopt is not in correct format, data is not hexadecimal string"
    else if goParseUint16Ok code = false then
      .error "--ednsopt is not in correct format, code is not a decimal number"
    else .ok ()
  | _ => .error "--ednsopt is not in correct format"

/-- The `--ednsopt` validation block of `Benchmark.init` (lines 271-284). -/
def checkEdnsOpt (s : String) : Except String Unit :=
  checkEdnsOptParts (splitChar ':' s.data)

/-- Whether the `--ednsopt` validation succeeds. -/
def ednsOptValid (s : String) : Bool :=
  (checkEdnsOpt s).isOk

/-! ## The `Benchmark` configuration and `init` (benchmark.go lines 228-295)

Only the fields the verified claims depend on are modelled; durations are
nanosecond counts (`ℤ`, like Go `time.Duration`), `Count` is `ℤ` (Go
`int64`), `Edns0` is a `ℕ` below 2^16 (Go `uint16`), and `Probability` is a
rational (Go `float64`; only its order against draws in `[0,1)` matters). -/

structure Benchmark where
  Server : String := ""
  Types : List String := []
  Count : ℤ := 0
  Duration : ℤ := 0
  Concurrency : ℕ := 0
  Rate : ℤ := 0
  RateLimitWorker : ℤ := 0
  Recurse : Bool := false
  Probability : ℚ := 0
  EdnsOpt : String := ""
  DNSSEC : Bool := false
  Edns0 : ℕ := 0
  RequestTimeout : ℤ := 0
  HistMax : ℤ := 0
  RequestLogEnabled : Bool := false
  RequestLogPath : String := ""
  RequestDelay : String := ""
  PrometheusMetricsAddr : String := ""
  useQuic : Bool := false
  useDoH : Bool := false
  requestDelayStart : ℤ := 0
  requestDelayEnd : ℤ := 0
deriving DecidableEq

/-- Lines 237-241 of `Benchmark.init`: record the DoH and QUIC transport
flags and strip a `quic://` scheme.  The DoH URL normalization of lines
243-253 (appending `/dns-query` to a path-less DoH URL) and
`addPortIfMissing` rewrite only `Server` further and are not needed by any
claim, so those rewrites are not modelled; the only failure mode of that
block, `url.Parse` on a DoH server string, rejects only control characters
and malformed ports and is modelled as succeeding. -/
def normalizeServer (b : Benchmark) : Benchmark :=
  { b with useDoH := (isHTTPUrl b.Server).1, useQuic := hasQuicScheme b.Server,
           Server := if hasQuicScheme b.Server then String.mk (b.Server.data.drop 7) else b.Server }

/-- Lines 255-257: `Count := 1` when neither a count nor a duration was
supplied. -/
def normalizeCountDefault (b : Benchmark) : Benchmark :=
  if b.Count = 0 ∧ b.Duration = 0 then { b with Count := 1 } else b

/-- Lines 263-265: `HistMax := RequestTimeout` when unset. -/
def normalizeHistMax (b : Benchmark) : Benchmark :=
  if b.HistMax = 0 then { b with HistMax := b.RequestTimeout } else b

/-- Lines 286-288: default request-log path. -/
def normalizeReqLog (b : Benchmark) : Benchmark :=
  if b.RequestLogEnabled ∧ b.RequestLogPath = "" then
    { b with RequestLogPath := "requests.log" } else b

/-- `Benchmark.init` (benchmark.go lines 228-295): validates and normalizes
the configuration, in the source's order.  The `Writer` default of lines
229-231 is I/O plumbing and is not modelled. -/
def Benchmark.init (b : Benchmark) : Except String Benchmark :=
  if b.Server = "" then .error "server for benchmarking must not be empty"
  else
    let b1 := normalizeCountDefault (normalizeServer b)
    if 0 < b1.Duration ∧ 0 < b1.Count then
      .error "--number and --duration is specified at once, only one can be used"
    else
      let b2 := normalizeHistMax b1
      if b2.Edns0 ≠ 0 ∧ (b2.Edns0 < 512 ∨ 4096 < b2.Edns0) then
        .error "--edns0 must have value between 512 and 4096"
      else
        match (if b2.EdnsOpt = "" then Except.ok () else checkEdnsOpt b2.EdnsOpt) with
        | .error e => .error e
        | .ok _ =>
          let b3 := normalizeReqLog b2
          match parseRequestDelay b3.RequestDelay with
          | .error e => .error e
          | .ok d => .ok { b3 with requestDelayStart := d.1, requestDelayEnd := d.2 }

/-! ## Request construction (benchmark.go lines 444-471 and `addEdnsOpt`) -/

/-- `addEdnsOpt` (benchmark.go lines 589-599): ensure an OPT RR exists
(adding one with the default 1232 buffer size if not), split the option on
`:`, hex-decode the data and parse the code ignoring errors, and append the
local option to the OPT.  `Run` only calls this after `init` validated the
option, so the string always has exactly two halves; on an out-of-contract
string (no `:`) the Go code would panic on `s[1]`, modelled here by the empty
second half. -/
def addEdnsOpt (m : DnsMsg) (ednsOpt : String) : DnsMsg :=
  let m := if (isEdns0 m).isNone then setEdns0 m 1232 false else m
  let s := splitChar ':' ednsOpt.data
  let data := (goHexDecode (s.getD 1 [])).1
  let code := goParseUint16 (s.getD 0 [])
  appendOptionLast m code data

/-- One request as built by the worker body (benchmark.go lines 444-471):
a single INET question, the RD flag from the config, the Id either 0 (QUIC)
or the value drawn from the process-global `math/rand` source, then the OPT
RR steps for `Edns0`, `EdnsOpt` and `DNSSEC` in that order. -/
def buildRequest (b : Benchmark) (q : String) (qt : ℕ) (idDraw : ℕ) : DnsMsg :=
  let req : DnsMsg := { recursionDesired := b.Recurse,
                        question := [{ name := q, qtype := qt, qclass := 1 }] }
  let req := { req with id := if b.useQuic then 0 else idDraw }
  let req := if 0 < b.Edns0 then setEdns0 req b.Edns0 false else req
  let req := if b.EdnsOpt ≠ "" then addEdnsOpt req b.EdnsOpt else req
  if b.DNSSEC then
    let req := if (isEdns0 req).isNone then setEdns0 req 1232 false else req
    setDoLast req
  else req

/-! ## The worker loop (benchmark.go lines 403-498)

Each innermost loop body is driven by one `StepEnv` entry of a schedule
`env : ℕ → StepEnv` (entry `n` for the n-th body the worker enters), by the
worker-private random stream `priv : ℕ → ℚ` (line 415's `rando`; consumed
once per probability draw and once per uniform-delay draw, values in
`[0,1)` for `Float64`), and by the process-global random stream
`g : ℕ → ℕ` (line 455's `rand.Intn(1 << 16)`; consumed once per built
request unless the transport is QUIC). -/

/-- The environment of one innermost loop body: the clock readings, whether
the shared context was observed cancelled at the top-of-body check (line
427), whether a cancellable rate-limit acquire was cut short by cancellation
(`checkLimit`, lines 654-667), and the transport's answer (`workerQueryFactory`
is outside this file; the spec's transport contract returns a response or an
error and honours cancellation, so its outcome is an oracle). -/
structure StepEnv where
  check : ℤ
  cancelAtCheck : Bool
  globalCancel : Bool
  workerCancel : Bool
  start : ℤ
  ctxNow : ℤ
  transportErr : Bool
  resp : Option DnsMsg
  dur : ℤ
deriving DecidableEq

/-- What `st.record(&req, resp, err, start, dur)` receives (benchmark.go
line 486); the sink is opaque, so a run is the list of these records. -/
structure ResultRecord where
  req : DnsMsg
  resp : Option DnsMsg
  err : Bool
  start : ℤ
  dur : ℤ
deriving DecidableEq

/-- Outcome of one innermost loop body: the worker returns, the body is
skipped by the probability draw, or a record is produced. -/
inductive StepResult where
  | exit
  | skip
  | recd (r : ResultRecord)
deriving DecidableEq

/-- The deadline of the per-request context
`context.WithTimeout(ctx, b.RequestTimeout)` (line 475): `ctxNow` is the
clock when it is created (at or after `start`, which line 473 reads first);
a deadline already carried by the shared context caps it.  `WithTimeout`
always sets a deadline, so the `deadlineSet` guard of line 478 is true. -/
def reqDeadline (b : Benchmark) (sharedDeadline : Option ℤ) (e : StepEnv) : ℤ :=
  match sharedDeadline with
  | none => e.ctxNow + b.RequestTimeout
  | some d => min d (e.ctxNow + b.RequestTimeout)

/-- One innermost loop body (benchmark.go lines 427-493): the cancellation
check, the probability draw, the two cancellable rate-limit acquires (taken
only when the corresponding limiter exists, `b.Rate > 0` resp.
`b.RateLimitWorker > 0`), the request build and dispatch, the
late-cancellation guard of lines 478-481, and otherwise the record. -/
def stepOnce (b : Benchmark) (sd : Option ℤ) (e : StepEnv) (draw : ℚ) (idDraw : ℕ)
    (q : String) (qt : ℕ) : StepResult :=
  if e.cancelAtCheck then .exit
  else if b.Probability < draw then .skip
  else if 0 < b.Rate ∧ e.globalCancel then .exit
  else if 0 < b.RateLimitWorker ∧ e.workerCancel then .exit
  else
    let req := buildRequest b q qt idDraw
    if e.transportErr ∧ reqDeadline b sd e < e.start then .exit
    else .recd { req := req, resp := e.resp, err := e.transportErr, start := e.start, dur := e.dur }

/-- How many worker-private draws the post-record delay consumes:
`Benchmark.delay` (lines 524-533) draws `rando.Int63n` exactly when both
`requestDelayStart` and `requestDelayEnd` are positive. -/
def delayDraws (b : Benchmark) : ℕ :=
  if 0 < b.requestDelayStart ∧ 0 < b.requestDelayEnd then 1 else 0

/-- How many global-source draws a built request consumes: one, unless the
transport is QUIC (the Id is then the constant 0). -/
def idDraws (b : Benchmark) : ℕ :=
  if b.useQuic then 0 else 1

/-- The running state of a worker: the index of the next schedule entry, the
positions in the private and global random streams, the records written to
the sink so far (in order), and whether the goroutine has returned. -/
structure LoopState where
  n : ℕ := 0
  p : ℕ := 0
  gp : ℕ := 0
  recs : List ResultRecord := []
  exited : Bool := false
deriving DecidableEq

/-- One pass over a list of (question, type) pairs — the two inner `for`
loops of the worker for one value of `i` — threading the loop state. -/
def runPass (b : Benchmark) (sd : Option ℤ) (env : ℕ → StepEnv) (priv : ℕ → ℚ)
    (g : ℕ → ℕ) : List (String × ℕ) → LoopState → LoopState
  | [], s => s
  | (q, qt) :: rest, s =>
    if s.exited then s
    else
      match stepOnce b sd (env s.n) (priv s.p) (g s.gp) q qt with
      | .exit => { s with exited := true }
      | .skip => runPass b sd env priv g rest { s with n := s.n + 1, p := s.p + 1 }
      | .recd r =>
        runPass b sd env priv g rest
          { s with n := s.n + 1, p := s.p + 1 + delayDraws b, gp := s.gp + idDraws b,
                   recs := s.recs ++ [r] }

/-- The (question, type) matrix one outer iteration walks, in the order of
the two inner loops (questions outer, types inner). -/
def passList (questions : List String) (qTypes : List ℕ) : List (String × ℕ) :=
  questions.flatMap fun q => qTypes.map fun t => (q, t)

/-- A worker in counted mode (`Duration = 0`): the outer loop runs
`b.Count` times — `for i := int64(0); i < b.Count || b.Duration != 0; i++`
with `Duration = 0` — so the final state is `Count` passes from the initial
state (a pass after an early return leaves the state unchanged). -/
def runCounted (b : Benchmark) (sd : Option ℤ) (env : ℕ → StepEnv) (priv : ℕ → ℚ)
    (g : ℕ → ℕ) (questions : List String) (qTypes : List ℕ) : LoopState :=
  (List.range b.Count.toNat).foldl
    (fun s _ => runPass b sd env priv g (passList questions qTypes) s) {}

/-- A worker in duration mode (`Duration ≠ 0`): the outer loop condition is
always true, so the worker only stops by returning from the body.  `fuel`
bounds how many outer iterations are examined: the worker terminates iff the
state is `exited` for some fuel. -/
def runDur (b : Benchmark) (sd : Option ℤ) (env : ℕ → StepEnv) (priv : ℕ → ℚ)
    (g : ℕ → ℕ) (questions : List String) (qTypes : List ℕ) : ℕ → LoopState → LoopState
  | 0, s => s
  | fuel + 1, s =>
    if s.exited then s
    else runDur b sd env priv g questions qTypes fuel
           (runPass b sd env priv g (passList questions qTypes) s)

/-- The per-worker record lists of a counted-mode run with `Concurrency`
workers (benchmark.go lines 399-505): worker `w` runs with its own schedule
and random streams; the sinks are single-writer and independent. -/
def runBenchmark (b : Benchmark) (sd : Option ℤ) (envs : ℕ → ℕ → StepEnv)
    (privs : ℕ → ℕ → ℚ) (gs : ℕ → ℕ → ℕ) (questions : List String)
    (qTypes : List ℕ) : List (List ResultRecord) :=
  (List.range b.Concurrency).map fun w =>
    (runCounted b sd (envs w) (privs w) (gs w) questions qTypes).recs

/-- Erase the request Id of a record (for stating which parts of a run are
independent of the process-global random source). -/
def stripId (r : ResultRecord) : ResultRecord :=
  { r with req := { r.req with id := 0 } }

/-! ## Question preparation (`prepareQuestions`, benchmark.go lines 632-652) -/

/-- `dropCR` of `bufio.ScanLines`: remove one trailing carriage return. -/
def dropCR (cs : List Char) : List Char :=
  match cs.getLast? with
  | some '\r' => cs.dropLast
  | _ => cs

/-- Accumulator form of `bufio.Scanner` with `ScanLines`: split on `'\n'`,
strip one trailing `'\r'` per line, and do not produce a final empty token
when the input ends at a newline (or is empty). -/
def scanLinesAux : List Char → List Char → List (List Char)
  | [], [] => []
  | [], acc => [dropCR acc.reverse]
  | '\n' :: rest, acc => dropCR acc.reverse :: scanLinesAux rest []
  | c :: rest, acc => scanLinesAux rest (c :: acc)

/-- The lines a `bufio.Scanner` yields for a body. -/
def scanLines (s : String) : List String :=
  (scanLinesAux s.data []).map fun cs => ⟨cs⟩

/-- `dns.IsFqdn`: the name ends in a dot that is not escaped, i.e. the run
of backslashes immediately before the final dot has even length. -/
def isFqdn (s : String) : Bool :=
  match s.data.reverse with
  | '.' :: rest => (rest.takeWhile (fun c => c = '\\')).length % 2 = 0
  | _ => false

/-- `dns.Fqdn`: ensure the trailing dot (so `""` becomes `"."`). -/
def fqdn (s : String) : String :=
  if isFqdn s then s else s ++ "."

/-- `Benchmark.prepareQuestions` (benchmark.go lines 632-652).  The HTTP
fetch `client.Get` is an oracle `fetch` returning either a transport error
or a status code and the body; a transport error and a non-2xx status are
fatal; every scanned line of a fetched body and every literal entry is
appended in order, through `dns.Fqdn`. -/
def prepareQuestions (fetch : String → Except String (ℕ × String)) :
    List String → Except String (List String)
  | [] => .ok []
  | q :: rest =>
    if (isHTTPUrl q).1 then
      match fetch q with
      | .error e => .error ("failed to download file " ++ q ++ " " ++ e)
      | .ok (status, body) =>
        if status < 200 ∨ 299 < status then
          .error ("failed to download file " ++ q ++ ", status")
        else
          match prepareQuestions fetch rest with
          | .error e => .error e
          | .ok qs => .ok ((scanLines body).map fqdn ++ qs)
    else
      match prepareQuestions fetch rest with
      | .error e => .error e
      | .ok qs => .ok (fqdn q :: qs)

/-- Modelled from the spec (§4.B `load`): what one entry contributes — an
HTTP(S) URL is fetched (non-2xx fatal) and each line becomes one question,
any other entry is one literal name; all names normalized to FQDN form.
Stated with all lines kept, which is the behaviour of the code. -/
def loadEntryAllLines (fetch : String → Except String (ℕ × String)) (q : String) :
    Except String (List String) :=
  if (isHTTPUrl q).1 then
    match fetch q with
    | .error e => .error ("failed to download file " ++ q ++ " " ++ e)
    | .ok (status, body) =>
      if status < 200 ∨ 299 < status then
        .error ("failed to download file " ++ q ++ ", status")
      else .ok ((scanLines body).map fqdn)
  else .ok [fqdn q]

/-- Modelled from the spec (§4.B `load`): the order-preserving concatenation
of the per-entry contributions, failing on the first failing entry. -/
def specLoadAllLines (fetch : String → Except String (ℕ × String)) :
    List String → Except String (List String)
  | [] => .ok []
  | q :: rest =>
    match loadEntryAllLines fetch q, specLoadAllLines fetch rest with
    | .ok xs, .ok ys => .ok (xs ++ ys)
    | .error e, _ => .error e
    | .ok _, .error e => .error e

/-- The loader exactly as the spec sentence words it: as `specLoadAllLines`,
but only each NON-EMPTY line of a fetched body becomes a question. -/
def specLoadNonEmpty (fetch : String → Except String (ℕ × String))
    (queries : List String) : Except String (List String) :=
  (queries.mapM (fun q =>
    if (isHTTPUrl q).1 then
      match fetch q with
      | .error e => Except.error ("failed to download file " ++ q ++ " " ++ e)
      | .ok (status, body) =>
        if status < 200 ∨ 299 < status then
          Except.error ("failed to download file " ++ q ++ ", status")
        else Except.ok (((scanLines body).filter (fun l => l ≠ "")).map fqdn)
    else Except.ok [fqdn q])).map List.flatten

/-! ## The Prometheus tap (`measureProm`, benchmark.go lines 508-522) -/

/-- One metric update emitted by `measureProm`; the label strings are
rendered from the numeric type and rcode by the `dns` package's maps, so the
numbers stand in for the labels. -/
inductive PromEvent where
  | responseTotal (respQtype rcode : ℕ)
  | errorsTotal
  | durationObserve (reqQtype : ℕ) (d : ℤ)
deriving DecidableEq

/-- `Benchmark.measureProm`: a no-op when the Prometheus address is empty;
otherwise it indexes `resp.Question[0]` (when a response is present) and
`req.Question[0]` with no emptiness guard — an empty question section is an
out-of-range index, i.e. a Go panic, modelled as `none`. -/
def measureProm (b : Benchmark) (req : DnsMsg) (resp : Option DnsMsg) (d : ℤ)
    (err : Bool) : Option (List PromEvent) :=
  if b.PrometheusMetricsAddr = "" then some []
  else
    let respEvents : Option (List PromEvent) :=
      match resp with
      | none => some []
      | some r =>
        match r.question.head? with
        | none => none
        | some q0 => some [.responseTotal q0.qtype r.rcode]
    match respEvents with
    | none => none
    | some evs =>
      let evs := evs ++ (if err then [PromEvent.errorsTotal] else [])
      match req.question.head? with
      | none => none
      | some rq => some (evs ++ [.durationObserve rq.qtype d])

/-! ## Spec-side definitions for the delay grammar (§6 of the spec)

These follow the spec's words, for comparison with `parseRequestDelay`:
the grammar `^(<duration>)(-(<duration>))?$` as a split on `-`, with a
duration token recognized from its suffix. -/

/-- One `<duration>` token of the spec grammar with the spec's full suffix
set `ns|ms|s|m|h|d|w` (recognized from the end of the token). -/
def specTokenDW (cs : List Char) : Bool :=
  match cs.reverse with
  | 's' :: 'm' :: ds => decide (ds ≠ []) && ds.all Char.isDigit
  | 's' :: 'n' :: ds => decide (ds ≠ []) && ds.all Char.isDigit
  | c :: ds =>
    decide (c = 's' ∨ c = 'm' ∨ c = 'h' ∨ c = 'd' ∨ c = 'w') &&
      decide (ds ≠ []) && ds.all Char.isDigit
  | [] => false

/-- The claim's grammar: one token, or two tokens joined by `-`. -/
def specDelayGrammar (s : String) : Bool :=
  match splitChar '-' s.data with
  | [a] => specTokenDW a
  | [a, c] => specTokenDW a && specTokenDW c
  | _ => false

/-- One `<duration>` token together with its parsed value, with the token
recognized from the end as in `specTokenDW` (so structurally independent of
`matchDuration`'s left-to-right scan). -/
def specTokenVal (cs : List Char) : Option (ℕ × String) :=
  match cs.reverse with
  | 's' :: 'm' :: ds =>
    if ds ≠ [] ∧ ds.all Char.isDigit then some (digitsToNat ds.reverse, "ms") else none
  | 's' :: 'n' :: ds =>
    if ds ≠ [] ∧ ds.all Char.isDigit then some (digitsToNat ds.reverse, "ns") else none
  | c :: ds =>
    if (c = 's' ∨ c = 'm' ∨ c = 'h' ∨ c = 'd' ∨ c = 'w') ∧ ds ≠ [] ∧ ds.all Char.isDigit then
      some (digitsToNat ds.reverse, String.singleton c)
    else none
  | [] => none

/-- The amended spec acceptance condition: the grammar split on `-`, each
token a valid Go duration (which excludes `d` and `w`), and — when both
durations are positive — a strictly increasing interval. -/
def specDelayOk (s : String) : Bool :=
  match splitChar '-' s.data with
  | [a] =>
    match specTokenVal a with
    | some (n, u) => (goParseDuration n u).isOk
    | none => false
  | [a, c] =>
    match specTokenVal a, specTokenVal c with
    | some (n1, u1), some (n2, u2) =>
      match goParseDuration n1 u1, goParseDuration n2 u2 with
      | .ok d1, .ok d2 => !(decide (0 < d2) && decide (0 < d1) && decide (d2 - d1 ≤ 0))
      | _, _ => false
    | _, _ => false
  | _ => false

/-! ## Fixtures for concrete runs -/

/-- A step environment in which nothing is cancelled and the transport
answers without error after 2 ns. -/
def benignEnv : StepEnv :=
  { check := 0, cancelAtCheck := false, globalCancel := false, workerCancel := false,
    start := 1, ctxNow := 1, transportErr := false, resp := none, dur := 2 }

/-- A step environment consistent with the shared context being cancelled at
time 5, mid-flight: the pre-dispatch check runs at time 0 (cancellation not
yet observed), the request is dispatched at time 1, and the transport —
honouring cancellation — returns an error at time `start + dur = 6`. -/
def midCancelEnv : StepEnv :=
  { check := 0, cancelAtCheck := false, globalCancel := false, workerCancel := false,
    start := 1, ctxNow := 1, transportErr := true, resp := none, dur := 5 }

/-! ## Helper lemmas -/

theorem goHexDecode_ok_iff : ∀ cs : List Char,
    (goHexDecode cs).2 = true ↔ (cs.length % 2 = 0 ∧ ∀ c ∈ cs, (hexDigitVal c).isSome = true)
  | [] => by simp [goHexDecode]
  | [a] => by simp [goHexDecode]
  | a :: b :: rest => by
    have ih := goHexDecode_ok_iff rest
    have hl : (rest.length + 1 + 1) % 2 = rest.length % 2 := by omega
    cases hA : hexDigitVal a <;> cases hB : hexDigitVal b <;>
      simp [goHexDecode, hA, hB, ih, hl]

theorem splitChar_ne_nil (sep : Char) : ∀ cs : List Char, splitChar sep cs ≠ []
  | [] => by simp [splitChar]
  | c :: rest => by
    by_cases h : c = sep
    · simp [splitChar, h]
    · have := splitChar_ne_nil sep rest
      cases hs : splitChar sep rest with
      | nil => exact absurd hs this
      | cons g gs => simp [splitChar, h, hs]

theorem splitChar_no_sep (sep : Char) : ∀ a : List Char, sep ∉ a → splitChar sep a = [a]
  | [], _ => rfl
  | c :: a, h => by
    simp only [List.mem_cons, not_or] at h
    have ih := splitChar_no_sep sep a h.2
    have hc : ¬ c = sep := fun hc => h.1 hc.symm
    simp [splitChar, hc, ih]

theorem splitChar_single (sep : Char) : ∀ cs a : List Char,
    splitChar sep cs = [a] → cs = a ∧ sep ∉ a
  | [], a, h => by
    simp only [splitChar, List.cons.injEq, and_true] at h
    subst h
    exact ⟨rfl, by simp⟩
  | c :: rest, a, h => by
    by_cases hc : c = sep
    · rw [show splitChar sep (c :: rest) = [] :: splitChar sep rest by simp [splitChar, hc]] at h
      simp only [List.cons.injEq] at h
      exact absurd h.2 (splitChar_ne_nil sep rest)
    · cases hs : splitChar sep rest with
      | nil => exact absurd hs (splitChar_ne_nil sep rest)
      | cons g gs =>
        rw [show splitChar sep (c :: rest) = (c :: g) :: gs by simp [splitChar, hc, hs]] at h
        simp only [List.cons.injEq] at h
        obtain ⟨ha, hgs⟩ := h
        subst hgs
        obtain ⟨hrest, hmem⟩ := splitChar_single sep rest g hs
        subst hrest
        subst ha
        refine ⟨rfl, ?_⟩
        simp only [List.mem_cons, not_or]
        exact ⟨fun hcc => hc hcc.symm, hmem⟩

theorem splitChar_eq_single_iff (sep : Char) (cs a : List Char) :
    splitChar sep cs = [a] ↔ cs = a ∧ sep ∉ a := by
  constructor
  · exact splitChar_single sep cs a
  · rintro ⟨rfl, hmem⟩
    exact splitChar_no_sep sep cs hmem

theorem splitChar_append_sep (sep : Char) : ∀ a rest : List Char, sep ∉ a →
    splitChar sep (a ++ sep :: rest) = a :: splitChar sep rest
  | [], rest, _ => by simp [splitChar]
  | c :: a, rest, h => by
    simp only [List.mem_cons, not_or] at h
    have ih := splitChar_append_sep sep a rest h.2
    have hc : ¬ c = sep := fun hcc => h.1 hcc.symm
    cases hs : splitChar sep (a ++ sep :: rest) with
    | nil => exact absurd hs (splitChar_ne_nil sep _)
    | cons g gs =>
      rw [hs] at ih
      simp only [List.cons.injEq] at ih
      simp [splitChar, hc, hs, ih.1, ih.2]

theorem splitChar_pair (sep : Char) : ∀ cs a b : List Char,
    splitChar sep cs = [a, b] → cs = a ++ sep :: b ∧ sep ∉ a ∧ sep ∉ b
  | [], a, b, h => by simp [splitChar] at h
  | c :: rest, a, b, h => by
    by_cases hc : c = sep
    · rw [show splitChar sep (c :: rest) = [] :: splitChar sep rest by simp [splitChar, hc]] at h
      simp only [List.cons.injEq] at h
      obtain ⟨ha, hb⟩ := h
      obtain ⟨hrest, hmem⟩ := splitChar_single sep rest b hb
      subst hrest
      subst hc
      exact ⟨by simp [← ha], by simp [← ha], hmem⟩
    · cases hs : splitChar sep rest with
      | nil => exact absurd hs (splitChar_ne_nil sep rest)
      | cons g gs =>
        rw [show splitChar sep (c :: rest) = (c :: g) :: gs by simp [splitChar, hc, hs]] at h
        simp only [List.cons.injEq] at h
        obtain ⟨ha, hgs⟩ := h
        have hpair : splitChar sep rest = [g, b] := by rw [hs, hgs]
        obtain ⟨hdec, hma, hmb⟩ := splitChar_pair sep rest g b hpair
        refine ⟨?_, ?_, hmb⟩
        · rw [← ha, hdec, List.cons_append]
        · rw [← ha]
          simp only [List.mem_cons, not_or]
          exact ⟨fun hcc => hc hcc.symm, hma⟩

theorem splitChar_eq_pair_iff (sep : Char) (cs a b : List Char) :
    splitChar sep cs = [a, b] ↔ cs = a ++ sep :: b ∧ sep ∉ a ∧ sep ∉ b := by
  constructor
  · exact splitChar_pair sep cs a b
  · rintro ⟨rfl, hma, hmb⟩
    rw [splitChar_append_sep sep a b hma, splitChar_no_sep sep b hmb]


/-! ## Claim theorems -/

theorem passList_nil_left (qTypes : List ℕ) : passList [] qTypes = [] := rfl

theorem passList_nil_right (questions : List String) : passList questions [] = [] := by
  simp [passList]

/-- Claim C3: the claim says every worker terminates for every configuration,
including empty question and type lists.  The code refutes it: in duration
mode the cancellation check sits inside the innermost loop, so with an empty
question×type matrix a worker makes no progress and never exits, for any
number of outer iterations. -/
theorem c3_empty_matrix_never_exits (b : Benchmark) (sd : Option ℤ)
    (env : ℕ → StepEnv) (priv : ℕ → ℚ) (g : ℕ → ℕ) (questions : List String)
    (qTypes : List ℕ) : ∀ fuel : ℕ,
    runDur b sd env priv g [] qTypes fuel {} = ({} : LoopState) ∧
    runDur b sd env priv g questions [] fuel {} = ({} : LoopState)
  | 0 => ⟨rfl, rfl⟩
  | fuel + 1 => by
    have ih := c3_empty_matrix_never_exits b sd env priv g questions qTypes fuel
    constructor
    · show runDur b sd env priv g [] qTypes (fuel + 1) {} = ({} : LoopState)
      rw [runDur]
      simp [passList_nil_left, runPass, ih.1]
    · rw [runDur]
      simp [passList_nil_right, runPass, ih.2]

@[simp] theorem normalizeServer_Count (b : Benchmark) : (normalizeServer b).Count = b.Count := rfl
@[simp] theorem normalizeServer_Duration (b : Benchmark) : (normalizeServer b).Duration = b.Duration := rfl
@[simp] theorem normalizeServer_EdnsOpt (b : Benchmark) : (normalizeServer b).EdnsOpt = b.EdnsOpt := rfl

@[simp] theorem normalizeCountDefault_Count (b : Benchmark) :
    (normalizeCountDefault b).Count = if b.Count = 0 ∧ b.Duration = 0 then 1 else b.Count := by
  unfold normalizeCountDefault; split <;> simp_all

@[simp] theorem normalizeCountDefault_Duration (b : Benchmark) :
    (normalizeCountDefault b).Duration = b.Duration := by
  unfold normalizeCountDefault; split <;> rfl

@[simp] theorem normalizeCountDefault_EdnsOpt (b : Benchmark) :
    (normalizeCountDefault b).EdnsOpt = b.EdnsOpt := by
  unfold normalizeCountDefault; split <;> rfl

@[simp] theorem normalizeHistMax_Count (b : Benchmark) : (normalizeHistMax b).Count = b.Count := by
  unfold normalizeHistMax; split <;> rfl
@[simp] theorem normalizeHistMax_Duration (b : Benchmark) : (normalizeHistMax b).Duration = b.Duration := by
  unfold normalizeHistMax; split <;> rfl
@[simp] theorem normalizeHistMax_EdnsOpt (b : Benchmark) : (normalizeHistMax b).EdnsOpt = b.EdnsOpt := by
  unfold normalizeHistMax; split <;> rfl

@[simp] theorem normalizeReqLog_Count (b : Benchmark) : (normalizeReqLog b).Count = b.Count := by
  unfold normalizeReqLog; split <;> rfl
@[simp] theorem normalizeReqLog_Duration (b : Benchmark) : (normalizeReqLog b).Duration = b.Duration := by
  unfold normalizeReqLog; split <;> rfl
@[simp] theorem normalizeReqLog_EdnsOpt (b : Benchmark) : (normalizeReqLog b).EdnsOpt = b.EdnsOpt := by
  unfold normalizeReqLog; split <;> rfl

theorem init_ok_count_duration (b b' : Benchmark) (h : b.init = .ok b') :
    (b'.Count = if b.Count = 0 ∧ b.Duration = 0 then (1 : ℤ) else b.Count) ∧
    b'.Duration = b.Duration ∧
    ¬(0 < b.Duration ∧ 0 < b'.Count) := by
  simp only [Benchmark.init] at h
  split at h
  · exact absurd h (by simp)
  · split at h
    · exact absurd h (by simp)
    next hconflict =>
      split at h
      · exact absurd h (by simp)
      · split at h
        · exact absurd h (by simp)
        · split at h
          · exact absurd h (by simp)
          next d hdelay =>
            have hb' : b' = { normalizeReqLog (normalizeHistMax (normalizeCountDefault (normalizeServer b)))
                with requestDelayStart := d.1, requestDelayEnd := d.2 } := by
              exact (Except.ok.injEq _ _ ▸ h).symm
            subst hb'
            refine ⟨by simp, by simp, ?_⟩
            intro hcontra
            exact hconflict ⟨by simpa using hcontra.1, by simpa using hcontra.2⟩


theorem init_err_of_ednsOpt (b : Benchmark) (hne : b.EdnsOpt ≠ "")
    (hbad : ednsOptValid b.EdnsOpt = false) : (b.init).isOk = false := by
  simp only [Benchmark.init]
  split
  · rfl
  · split
    · rfl
    · split
      · rfl
      · have hopt : (normalizeHistMax (normalizeCountDefault (normalizeServer b))).EdnsOpt
            = b.EdnsOpt := by
          rw [normalizeHistMax_EdnsOpt, normalizeCountDefault_EdnsOpt, normalizeServer_EdnsOpt]
        rw [hopt, if_neg hne]
        cases hc : checkEdnsOpt b.EdnsOpt with
        | error e => rfl
        | ok u => rw [ednsOptValid, hc] at hbad; simp [Except.isOk, Except.toBool] at hbad

theorem ednsOptValid_iff (s : String) :
    ednsOptValid s = true ↔
      ∃ code data : List Char, s.data = code ++ ':' :: data ∧
        code ≠ [] ∧ code.all Char.isDigit = true ∧ digitsToNat code < 65536 ∧
        data.length % 2 = 0 ∧ ∀ c ∈ data, (hexDigitVal c).isSome = true := by
  unfold ednsOptValid checkEdnsOpt
  constructor
  · intro h
    cases hs : splitChar ':' s.data with
    | nil => exact absurd hs (splitChar_ne_nil _ _)
    | cons g gs =>
      cases gs with
      | nil => rw [hs] at h; simp [checkEdnsOptParts, Except.isOk, Except.toBool] at h
      | cons g2 gs2 =>
        cases gs2 with
        | nil =>
          rw [hs] at h
          simp only [checkEdnsOptParts] at h
          by_cases h1 : (goHexDecode g2).2 = false
          · rw [if_pos h1] at h; simp [Except.isOk, Except.toBool] at h
          · rw [if_neg h1] at h
            by_cases h2 : goParseUint16Ok g = false
            · rw [if_pos h2] at h; simp [Except.isOk, Except.toBool] at h
            · obtain ⟨hdec, -, -⟩ := splitChar_pair ':' s.data g g2 hs
              have hg : goParseUint16Ok g = true := by revert h2; cases goParseUint16Ok g <;> simp
              have hhex := (goHexDecode_ok_iff g2).mp (by revert h1; cases (goHexDecode g2).2 <;> simp)
              simp only [goParseUint16Ok, Bool.and_eq_true, decide_eq_true_eq] at hg
              exact ⟨g, g2, hdec, hg.1.1, hg.1.2, hg.2, hhex.1, hhex.2⟩
        | cons g3 gs3 => rw [hs] at h; simp [checkEdnsOptParts, Except.isOk, Except.toBool] at h
  · rintro ⟨code, data, hdec, hne, hdig, hlt, heven, hhex⟩
    have hcode : ':' ∉ code := by
      intro hm
      exact absurd (List.all_eq_true.mp hdig _ hm) (by decide)
    have hdata : ':' ∉ data := by
      intro hm
      exact absurd (hhex _ hm) (by decide)
    rw [(splitChar_eq_pair_iff ':' s.data code data).mpr ⟨hdec, hcode, hdata⟩]
    have h1 : (goHexDecode data).2 = true := (goHexDecode_ok_iff data).mpr ⟨heven, hhex⟩
    have h2 : goParseUint16Ok code = true := by
      simp [goParseUint16Ok, hne, hdig, hlt]
    simp [checkEdnsOptParts, h1, h2, Except.isOk, Except.toBool]

/-- Claim C9: validation of a non-empty ednsOpt string succeeds exactly when
it is `decimalCode:hexData` — a decomposition into a non-empty decimal code
below 2^16, one colon, and an even-length hexadecimal data half (possibly
empty) — and any invalid non-empty ednsOpt makes `init` fail, before any
query is issued. -/
theorem c9_ednsopt_validation :
    (∀ s : String, ednsOptValid s = true ↔
      ∃ code data : List Char, s.data = code ++ ':' :: data ∧
        code ≠ [] ∧ code.all Char.isDigit = true ∧ digitsToNat code < 65536 ∧
        data.length % 2 = 0 ∧ ∀ c ∈ data, (hexDigitVal c).isSome = true) ∧
    (∀ b : Benchmark, b.EdnsOpt ≠ "" → ednsOptValid b.EdnsOpt = false →
      (b.init).isOk = false) :=
  ⟨ednsOptValid_iff, init_err_of_ednsOpt⟩

/-- Witness for C9 at concrete inputs: `"65001:DEADBEEF"` validates, and a
benchmark whose ednsOpt is `"65001"` (a missing half) fails `init`. -/
theorem c9_witness :
    ednsOptValid "65001:DEADBEEF" = true ∧
    (Benchmark.init { Server := "8.8.8.8", EdnsOpt := "65001" }).isOk = false := by
  constructor
  · exact (c9_ednsopt_validation.1 "65001:DEADBEEF").mpr
      ⟨"65001".data, "DEADBEEF".data, by decide, by decide, by decide, by decide, by decide,
        by decide⟩
  · exact c9_ednsopt_validation.2 { Server := "8.8.8.8", EdnsOpt := "65001" } (by decide) (by decide)



/-- Claim C4 fails as stated: `init` accepts a negative count with a zero
duration (nothing rejects it and the `Count := 1` default applies only when
the count is exactly 0), leaving a configuration in which neither `Count > 0`
nor `Duration > 0` holds after normalization. -/
theorem c4_counterexample :
    Benchmark.init { Server := "8.8.8.8", Count := -1 } =
      .ok { Server := "8.8.8.8", Count := -1 } ∧
    ¬(0 < ({ Server := "8.8.8.8", Count := -1 } : Benchmark).Count) ∧
    ¬(0 < ({ Server := "8.8.8.8", Count := -1 } : Benchmark).Duration) :=
  ⟨by decide, by decide, by decide⟩

/-- Claim C4, amended to non-negative inputs: for `Count ≥ 0` and
`Duration ≥ 0` on entry, a successful `init` establishes exactly one of
`Count > 0`, `Duration > 0`; if neither was supplied it sets `Count := 1`;
and if both are positive it returns a validation error (before any query is
issued — `Run` calls `init` first). -/
theorem c4_init_exactly_one (b : Benchmark) (hc : 0 ≤ b.Count) (hd : 0 ≤ b.Duration) :
    (∀ b', b.init = .ok b' →
      ((0 < b'.Count ∧ ¬ 0 < b'.Duration) ∨ (¬ 0 < b'.Count ∧ 0 < b'.Duration))) ∧
    (b.Count = 0 → b.Duration = 0 → ∀ b', b.init = .ok b' → b'.Count = 1) ∧
    (0 < b.Count → 0 < b.Duration → (b.init).isOk = false) := by
  refine ⟨?_, ?_, ?_⟩
  · intro b' h
    obtain ⟨h1, h2, h3⟩ := init_ok_count_duration b b' h
    by_cases hz : b.Count = 0 ∧ b.Duration = 0
    · rw [if_pos hz] at h1
      left
      refine ⟨by omega, ?_⟩
      rw [h2, hz.2]
      omega
    · rw [if_neg hz] at h1
      rw [h1] at h3
      rw [h1, h2]
      omega
  · intro hzc hzd b' h
    obtain ⟨h1, -, -⟩ := init_ok_count_duration b b' h
    rw [if_pos ⟨hzc, hzd⟩] at h1
    exact h1
  · intro hpc hpd
    simp only [Benchmark.init]
    split
    · rfl
    · split
      · rfl
      next hcon =>
        exfalso
        apply hcon
        have hnz : ¬(b.Count = 0 ∧ b.Duration = 0) := by omega
        constructor
        · simpa using hpd
        · rw [show (normalizeCountDefault (normalizeServer b)).Count = b.Count from by simp [hnz]]
          exact hpc

/-- Witness for C4's amended statement at a concrete input: `init` on a
benchmark with no count and no duration yields exactly one of the two modes
(the counted one). -/
theorem c4_witness :
    (0 < ({ Server := "8.8.8.8", Count := 1 } : Benchmark).Count ∧
      ¬ 0 < ({ Server := "8.8.8.8", Count := 1 } : Benchmark).Duration) ∨
    (¬ 0 < ({ Server := "8.8.8.8", Count := 1 } : Benchmark).Count ∧
      0 < ({ Server := "8.8.8.8", Count := 1 } : Benchmark).Duration) :=
  (c4_init_exactly_one { Server := "8.8.8.8" } (by decide) (by decide)).1
    { Server := "8.8.8.8", Count := 1 } (by decide)

/-- Claim C10: with Prometheus metrics enabled, the telemetry tap is
well-defined (all its metric updates happen) whenever every present response
carries at least one question and the request does; and a response with an
empty question section makes the unguarded `resp.Question[0]` indexing fail
(a Go panic, modelled as `none`). -/
theorem c10_measureProm_domain (b : Benchmark) (req : DnsMsg) (resp : Option DnsMsg)
    (d : ℤ) (err : Bool) (hprom : b.PrometheusMetricsAddr ≠ "") :
    ((∀ r, resp = some r → r.question ≠ []) → req.question ≠ [] →
      (measureProm b req resp d err).isSome = true) ∧
    (∀ r, resp = some r → r.question = [] → measureProm b req resp d err = none) := by
  constructor
  · intro hresp hreq
    unfold measureProm
    rw [if_neg hprom]
    cases resp with
    | none =>
      cases hq : req.question with
      | nil => exact absurd hq hreq
      | cons a l => simp [hq]
    | some r =>
      cases hq : r.question with
      | nil => exact absurd hq (hresp r rfl)
      | cons a l =>
        cases hq2 : req.question with
        | nil => exact absurd hq2 hreq
        | cons a2 l2 => simp [hq, hq2]
  · intro r hr hempty
    subst hr
    unfold measureProm
    rw [if_neg hprom]
    simp [hempty]

/-- Witness for C10 at concrete inputs: an enabled tap fails on a response
with an empty question section and succeeds on one with a question. -/
theorem c10_witness :
    measureProm { PrometheusMetricsAddr := "localhost:8080" }
      { question := [{ name := "example.com.", qtype := 1, qclass := 1 }] }
      (some { question := [] }) 5 false = none ∧
    (measureProm { PrometheusMetricsAddr := "localhost:8080" }
      { question := [{ name := "example.com.", qtype := 1, qclass := 1 }] }
      (some { question := [{ name := "example.com.", qtype := 1, qclass := 1 }] })
      5 false).isSome = true := by
  constructor
  · exact (c10_measureProm_domain _ _ _ 5 false (by decide)).2 { question := [] } rfl rfl
  · exact (c10_measureProm_domain _ _ _ 5 false (by decide)).1
      (fun r hr => by cases hr; decide) (by decide)


theorem runPass_of_exited (b : Benchmark) (sd : Option ℤ) (env : ℕ → StepEnv)
    (priv : ℕ → ℚ) (g : ℕ → ℕ) : ∀ (l : List (String × ℕ)) (s : LoopState),
    s.exited = true → runPass b sd env priv g l s = s
  | [], _, _ => rfl
  | (q, qt) :: rest, s, h => by
    unfold runPass
    rw [if_pos h]

theorem runPass_recs_length_le (b : Benchmark) (sd : Option ℤ) (env : ℕ → StepEnv)
    (priv : ℕ → ℚ) (g : ℕ → ℕ) : ∀ (l : List (String × ℕ)) (s : LoopState),
    (runPass b sd env priv g l s).recs.length ≤ s.recs.length + l.length
  | [], s => by simp [runPass]
  | (q, qt) :: rest, s => by
    unfold runPass
    by_cases h : s.exited = true
    · rw [if_pos h]
      simp
    · rw [if_neg h]
      cases hst : stepOnce b sd (env s.n) (priv s.p) (g s.gp) q qt with
      | exit => simp
      | skip =>
        have ih := runPass_recs_length_le b sd env priv g rest
          { s with n := s.n + 1, p := s.p + 1 }
        simp at ih ⊢
        omega
      | recd r =>
        have ih := runPass_recs_length_le b sd env priv g rest
          { s with n := s.n + 1, p := s.p + 1 + delayDraws b, gp := s.gp + idDraws b,
                   recs := s.recs ++ [r] }
        simp at ih ⊢
        omega

theorem passList_length : ∀ (questions : List String) (qTypes : List ℕ),
    (passList questions qTypes).length = questions.length * qTypes.length
  | [], qTypes => by simp [passList]
  | q :: rest, qTypes => by
    have ih := passList_length rest qTypes
    have hmul : (rest.length + 1) * qTypes.length = rest.length * qTypes.length + qTypes.length := by
      ring
    simp only [passList, List.flatMap_cons, List.length_append, List.length_map,
      List.length_cons] at ih ⊢
    omega

theorem foldPass_recs_length_le (b : Benchmark) (sd : Option ℤ) (env : ℕ → StepEnv)
    (priv : ℕ → ℚ) (g : ℕ → ℕ) (L : List (String × ℕ)) : ∀ (n : ℕ) (s : LoopState),
    (((List.range n).foldl (fun s _ => runPass b sd env priv g L s) s).recs).length ≤
      s.recs.length + n * L.length
  | 0, s => by rw [List.range_zero, List.foldl_nil]; omega
  | n + 1, s => by
    rw [List.range_succ, List.foldl_append]
    have h1 := foldPass_recs_length_le b sd env priv g L n s
    have h2 := runPass_recs_length_le b sd env priv g L
      ((List.range n).foldl (fun s _ => runPass b sd env priv g L s) s)
    have h3 : (n + 1) * L.length = n * L.length + L.length := by ring
    simp only [List.foldl_cons, List.foldl_nil]
    omega

theorem runCounted_recs_length_le (b : Benchmark) (sd : Option ℤ) (env : ℕ → StepEnv)
    (priv : ℕ → ℚ) (g : ℕ → ℕ) (questions : List String) (qTypes : List ℕ) :
    (runCounted b sd env priv g questions qTypes).recs.length ≤
      b.Count.toNat * (questions.length * qTypes.length) := by
  have h := foldPass_recs_length_le b sd env priv g (passList questions qTypes) b.Count.toNat {}
  rw [runCounted]
  simpa [passList_length] using h


theorem stepOnce_recd_of (b : Benchmark) (sd : Option ℤ) (e : StepEnv) (draw : ℚ) (idd : ℕ)
    (q : String) (qt : ℕ)
    (h1 : e.cancelAtCheck = false) (h2 : ¬ b.Probability < draw)
    (h3 : e.globalCancel = false) (h4 : e.workerCancel = false)
    (h5 : ¬(e.transportErr = true ∧ reqDeadline b sd e < e.start)) :
    stepOnce b sd e draw idd q qt =
      .recd { req := buildRequest b q qt idd, resp := e.resp, err := e.transportErr,
              start := e.start, dur := e.dur } := by
  unfold stepOnce
  rw [if_neg (by simp [h1]), if_neg h2, if_neg (by simp [h3]), if_neg (by simp [h4]),
    if_neg h5]

theorem runPass_benign (b : Benchmark) (sd : Option ℤ) (env : ℕ → StepEnv)
    (priv : ℕ → ℚ) (g : ℕ → ℕ)
    (hsd : sd = none) (hrt : 0 ≤ b.RequestTimeout) (hp : b.Probability = 1)
    (henv : ∀ n, (env n).cancelAtCheck = false ∧ (env n).globalCancel = false ∧
      (env n).workerCancel = false ∧ (env n).start ≤ (env n).ctxNow)
    (hpriv : ∀ p, priv p < 1) :
    ∀ (l : List (String × ℕ)) (s : LoopState), s.exited = false →
      (runPass b sd env priv g l s).exited = false ∧
      (runPass b sd env priv g l s).recs.length = s.recs.length + l.length
  | [], s, hs => by simp [runPass, hs]
  | (q, qt) :: rest, s, hs => by
    obtain ⟨e1, e2, e3, e4⟩ := henv s.n
    have h2 : ¬ b.Probability < priv s.p := by
      rw [hp]
      exact not_lt.mpr (le_of_lt (hpriv s.p))
    have h5 : ¬((env s.n).transportErr = true ∧ reqDeadline b sd (env s.n) < (env s.n).start) := by
      rintro ⟨-, hlt⟩
      rw [hsd] at hlt
      rw [show reqDeadline b none (env s.n) = (env s.n).ctxNow + b.RequestTimeout from rfl] at hlt
      omega
    have hstep := stepOnce_recd_of b sd (env s.n) (priv s.p) (g s.gp) q qt e1 h2 e2 e3 h5
    have ih := runPass_benign b sd env priv g hsd hrt hp henv hpriv rest
      { s with n := s.n + 1, p := s.p + 1 + delayDraws b, gp := s.gp + idDraws b,
               recs := s.recs ++ [{ req := buildRequest b q qt (g s.gp), resp := (env s.n).resp,
                                    err := (env s.n).transportErr, start := (env s.n).start,
                                    dur := (env s.n).dur }] }
      (by simpa using hs)
    unfold runPass
    rw [if_neg (by simp [hs])]
    rw [hstep]
    refine ⟨ih.1, ?_⟩
    rw [ih.2]
    simp
    omega

theorem foldPass_benign (b : Benchmark) (sd : Option ℤ) (env : ℕ → StepEnv)
    (priv : ℕ → ℚ) (g : ℕ → ℕ) (L : List (String × ℕ))
    (hsd : sd = none) (hrt : 0 ≤ b.RequestTimeout) (hp : b.Probability = 1)
    (henv : ∀ n, (env n).cancelAtCheck = false ∧ (env n).globalCancel = false ∧
      (env n).workerCancel = false ∧ (env n).start ≤ (env n).ctxNow)
    (hpriv : ∀ p, priv p < 1) :
    ∀ (n : ℕ) (s : LoopState), s.exited = false →
      (((List.range n).foldl (fun s _ => runPass b sd env priv g L s) s)).exited = false ∧
      (((List.range n).foldl (fun s _ => runPass b sd env priv g L s) s)).recs.length =
        s.recs.length + n * L.length
  | 0, s, hs => by rw [List.range_zero, List.foldl_nil]; exact ⟨hs, by omega⟩
  | n + 1, s, hs => by
    rw [List.range_succ, List.foldl_append]
    have h1 := foldPass_benign b sd env priv g L hsd hrt hp henv hpriv n s hs
    have h2 := runPass_benign b sd env priv g hsd hrt hp henv hpriv L
      ((List.range n).foldl (fun s _ => runPass b sd env priv g L s) s) h1.1
    have h3 : (n + 1) * L.length = n * L.length + L.length := by ring
    simp only [List.foldl_cons, List.foldl_nil]
    exact ⟨h2.1, by omega⟩

theorem runCounted_benign_length (b : Benchmark) (sd : Option ℤ) (env : ℕ → StepEnv)
    (priv : ℕ → ℚ) (g : ℕ → ℕ) (questions : List String) (qTypes : List ℕ)
    (hsd : sd = none) (hrt : 0 ≤ b.RequestTimeout) (hp : b.Probability = 1)
    (henv : ∀ n, (env n).cancelAtCheck = false ∧ (env n).globalCancel = false ∧
      (env n).workerCancel = false ∧ (env n).start ≤ (env n).ctxNow)
    (hpriv : ∀ p, priv p < 1) :
    (runCounted b sd env priv g questions qTypes).recs.length =
      b.Count.toNat * (questions.length * qTypes.length) := by
  have h := foldPass_benign b sd env priv g (passList questions qTypes) hsd hrt hp henv hpriv
    b.Count.toNat {} rfl
  rw [runCounted]
  rw [h.2, passList_length]
  simp

theorem sum_map_range_le (f : ℕ → ℕ) (c : ℕ) : ∀ n : ℕ, (∀ w, w < n → f w ≤ c) →
    (((List.range n).map f).sum) ≤ n * c
  | 0, _ => by simp
  | n + 1, h => by
    rw [List.range_succ, List.map_append, List.sum_append]
    have h1 := sum_map_range_le f c n (fun w hw => h w (by omega))
    have h2 := h n (by omega)
    have h3 : (n + 1) * c = n * c + c := by ring
    simp only [List.map_cons, List.map_nil, List.sum_cons, List.sum_nil]
    omega

theorem sum_map_range_eq (f : ℕ → ℕ) (c : ℕ) : ∀ n : ℕ, (∀ w, w < n → f w = c) →
    (((List.range n).map f).sum) = n * c
  | 0, _ => by simp
  | n + 1, h => by
    rw [List.range_succ, List.map_append, List.sum_append]
    have h1 := sum_map_range_eq f c n (fun w hw => h w (by omega))
    have h2 := h n (by omega)
    have h3 : (n + 1) * c = n * c + c := by ring
    simp only [List.map_cons, List.map_nil, List.sum_cons, List.sum_nil]
    omega


/-- Claim C1: in counted mode the total number of sink-recorded queries
across all workers is at most `count·W·|Types|·|Questions|`, for every
schedule; and it equals that product when `probability = 1` and the shared
context is never cancelled (no check observes cancellation, no rate-limit
acquire is cut short, the clock is monotone — `start ≤ ctxNow` — the shared
context carries no deadline and the request timeout is non-negative, so the
late-cancellation guard can never fire), with each worker contributing
`count·|Types|·|Questions|` records. -/
theorem c1_total_records (b : Benchmark) (sd : Option ℤ) (envs : ℕ → ℕ → StepEnv)
    (privs : ℕ → ℕ → ℚ) (gs : ℕ → ℕ → ℕ) (questions : List String) (qTypes : List ℕ)
    (hcount : 0 < b.Count) (hdur : b.Duration = 0) :
    ((runBenchmark b sd envs privs gs questions qTypes).map List.length).sum ≤
      b.Count.toNat * b.Concurrency * qTypes.length * questions.length ∧
    (b.Probability = 1 → sd = none → 0 ≤ b.RequestTimeout →
      (∀ w n, (envs w n).cancelAtCheck = false ∧ (envs w n).globalCancel = false ∧
        (envs w n).workerCancel = false ∧ (envs w n).start ≤ (envs w n).ctxNow) →
      (∀ w p, privs w p < 1) →
      (((runBenchmark b sd envs privs gs questions qTypes).map List.length).sum =
        b.Count.toNat * b.Concurrency * qTypes.length * questions.length ∧
       ∀ w, w < b.Concurrency →
         (runCounted b sd (envs w) (privs w) (gs w) questions qTypes).recs.length =
           b.Count.toNat * qTypes.length * questions.length)) := by
  have hcomp : (List.length ∘ fun w =>
      (runCounted b sd (envs w) (privs w) (gs w) questions qTypes).recs) =
      fun w => (runCounted b sd (envs w) (privs w) (gs w) questions qTypes).recs.length := rfl
  constructor
  · rw [runBenchmark, List.map_map, hcomp]
    have hb := sum_map_range_le
      (fun w => (runCounted b sd (envs w) (privs w) (gs w) questions qTypes).recs.length)
      (b.Count.toNat * (questions.length * qTypes.length)) b.Concurrency
      (fun w _ => runCounted_recs_length_le b sd (envs w) (privs w) (gs w) questions qTypes)
    calc ((List.range b.Concurrency).map
            (fun w => (runCounted b sd (envs w) (privs w) (gs w) questions qTypes).recs.length)).sum
        ≤ b.Concurrency * (b.Count.toNat * (questions.length * qTypes.length)) := hb
      _ = b.Count.toNat * b.Concurrency * qTypes.length * questions.length := by ring
  · intro hp hsd hrt henv hpriv
    have hw : ∀ w, w < b.Concurrency →
        (runCounted b sd (envs w) (privs w) (gs w) questions qTypes).recs.length =
          b.Count.toNat * (questions.length * qTypes.length) :=
      fun w _ => runCounted_benign_length b sd (envs w) (privs w) (gs w) questions qTypes
        hsd hrt hp (henv w) (hpriv w)
    constructor
    · rw [runBenchmark, List.map_map, hcomp]
      rw [sum_map_range_eq
        (fun w => (runCounted b sd (envs w) (privs w) (gs w) questions qTypes).recs.length)
        (b.Count.toNat * (questions.length * qTypes.length)) b.Concurrency hw]
      ring
    · intro w hw2
      rw [hw w hw2]
      ring

/-- Witness for C1 at the claim's concrete scenario: count 3, concurrency 2,
one question, one type, probability 1, benign schedules — 6 records in
total, 3 in worker 0's sink. -/
theorem c1_witness :
    ((runBenchmark { Count := 3, Concurrency := 2, Probability := 1, RequestTimeout := 100 } none
        (fun _ _ => benignEnv) (fun _ _ => 0) (fun _ _ => 7) ["example.com."] [1]).map
      List.length).sum = 6 ∧
    (runCounted { Count := 3, Concurrency := 2, Probability := 1, RequestTimeout := 100 } none
        (fun _ => benignEnv) (fun _ => 0) (fun _ => 7) ["example.com."] [1]).recs.length = 3 := by
  have h := (c1_total_records
      { Count := 3, Concurrency := 2, Probability := 1, RequestTimeout := 100 } none
      (fun _ _ => benignEnv) (fun _ _ => 0) (fun _ _ => 7) ["example.com."] [1]
      (by decide) rfl).2 rfl rfl (by decide)
      (fun w n => ⟨rfl, rfl, rfl, by decide⟩) (fun w p => by decide)
  exact ⟨by simpa using h.1, by simpa using h.2 0 (by decide)⟩



theorem stepOnce_cancel_exit (b : Benchmark) (sd : Option ℤ) (e : StepEnv) (draw : ℚ)
    (idd : ℕ) (q : String) (qt : ℕ) (h : e.cancelAtCheck = true) :
    stepOnce b sd e draw idd q qt = .exit := by
  unfold stepOnce
  rw [if_pos h]

theorem stepOnce_guard_exit (b : Benchmark) (sd : Option ℤ) (e : StepEnv) (draw : ℚ)
    (idd : ℕ) (q : String) (qt : ℕ)
    (herr : e.transportErr = true) (hlate : reqDeadline b sd e < e.start)
    (h1 : e.cancelAtCheck = false) (h2 : ¬ b.Probability < draw)
    (h3 : ¬(0 < b.Rate ∧ e.globalCancel = true))
    (h4 : ¬(0 < b.RateLimitWorker ∧ e.workerCancel = true)) :
    stepOnce b sd e draw idd q qt = .exit := by
  unfold stepOnce
  rw [if_neg (by simp [h1]), if_neg h2, if_neg h3, if_neg h4, if_pos ⟨herr, hlate⟩]

theorem stepOnce_recd_inv (b : Benchmark) (sd : Option ℤ) (e : StepEnv) (draw : ℚ)
    (idd : ℕ) (q : String) (qt : ℕ) (r : ResultRecord)
    (h : stepOnce b sd e draw idd q qt = .recd r) :
    e.cancelAtCheck = false ∧ r.err = e.transportErr ∧ r.start = e.start ∧
    r.dur = e.dur ∧ r.resp = e.resp ∧ r.req = buildRequest b q qt idd ∧
    (r.err = true → r.start ≤ reqDeadline b sd e) := by
  unfold stepOnce at h
  by_cases h1 : e.cancelAtCheck = true
  · rw [if_pos h1] at h
    exact absurd h (by simp)
  · rw [if_neg h1] at h
    by_cases h2 : b.Probability < draw
    · rw [if_pos h2] at h
      exact absurd h (by simp)
    · rw [if_neg h2] at h
      by_cases h3 : 0 < b.Rate ∧ e.globalCancel = true
      · rw [if_pos h3] at h
        exact absurd h (by simp)
      · rw [if_neg h3] at h
        by_cases h4 : 0 < b.RateLimitWorker ∧ e.workerCancel = true
        · rw [if_pos h4] at h
          exact absurd h (by simp)
        · rw [if_neg h4] at h
          by_cases h5 : e.transportErr = true ∧ reqDeadline b sd e < e.start
          · rw [if_pos h5] at h
            exact absurd h (by simp)
          · rw [if_neg h5] at h
            have hr : r = { req := buildRequest b q qt idd, resp := e.resp,
                            err := e.transportErr, start := e.start, dur := e.dur } := by
              cases h
              rfl
            subst hr
            refine ⟨by simpa using h1, rfl, rfl, rfl, rfl, rfl, ?_⟩
            intro herr
            show e.start ≤ reqDeadline b sd e
            by_contra hlt
            exact h5 ⟨herr, by omega⟩



theorem runPass_rec_source (b : Benchmark) (sd : Option ℤ) (env : ℕ → StepEnv)
    (priv : ℕ → ℚ) (g : ℕ → ℕ) :
    ∀ (l : List (String × ℕ)) (s : LoopState),
      (∀ r ∈ s.recs, ∃ n, (env n).cancelAtCheck = false ∧ r.err = (env n).transportErr ∧
        r.start = (env n).start ∧ r.dur = (env n).dur ∧
        (r.err = true → r.start ≤ reqDeadline b sd (env n))) →
      ∀ r ∈ (runPass b sd env priv g l s).recs, ∃ n,
        (env n).cancelAtCheck = false ∧ r.err = (env n).transportErr ∧
        r.start = (env n).start ∧ r.dur = (env n).dur ∧
        (r.err = true → r.start ≤ reqDeadline b sd (env n))
  | [], s, hs => by simpa [runPass] using hs
  | (q, qt) :: rest, s, hs => by
    unfold runPass
    by_cases hex : s.exited = true
    · rw [if_pos hex]
      exact hs
    · rw [if_neg hex]
      cases hst : stepOnce b sd (env s.n) (priv s.p) (g s.gp) q qt with
      | exit => exact hs
      | skip => exact runPass_rec_source b sd env priv g rest _ hs
      | recd r0 =>
        apply runPass_rec_source b sd env priv g rest
        intro r hr
        rcases List.mem_append.mp hr with hr | hr
        · exact hs r hr
        · have hrr : r = r0 := by simpa using hr
          subst hrr
          obtain ⟨hc, herr, hstart, hdur, hresp, hreq, hguard⟩ :=
            stepOnce_recd_inv b sd (env s.n) (priv s.p) (g s.gp) q qt r hst
          exact ⟨s.n, hc, herr, hstart, hdur, hguard⟩

theorem foldPass_rec_source (b : Benchmark) (sd : Option ℤ) (env : ℕ → StepEnv)
    (priv : ℕ → ℚ) (g : ℕ → ℕ) (L : List (String × ℕ)) :
    ∀ (n : ℕ) (s : LoopState),
      (∀ r ∈ s.recs, ∃ n', (env n').cancelAtCheck = false ∧ r.err = (env n').transportErr ∧
        r.start = (env n').start ∧ r.dur = (env n').dur ∧
        (r.err = true → r.start ≤ reqDeadline b sd (env n'))) →
      ∀ r ∈ ((List.range n).foldl (fun s _ => runPass b sd env priv g L s) s).recs, ∃ n',
        (env n').cancelAtCheck = false ∧ r.err = (env n').transportErr ∧
        r.start = (env n').start ∧ r.dur = (env n').dur ∧
        (r.err = true → r.start ≤ reqDeadline b sd (env n'))
  | 0, s, hs => by
    rw [List.range_zero, List.foldl_nil]
    exact hs
  | n + 1, s, hs => by
    rw [List.range_succ, List.foldl_append]
    simp only [List.foldl_cons, List.foldl_nil]
    exact runPass_rec_source b sd env priv g L _
      (foldPass_rec_source b sd env priv g L n s hs)

theorem runPass_cancel_first (b : Benchmark) (sd : Option ℤ) (env : ℕ → StepEnv)
    (priv : ℕ → ℚ) (g : ℕ → ℕ) (h0 : (env 0).cancelAtCheck = true) :
    ∀ (l : List (String × ℕ)) (s : LoopState),
      s.recs = [] ∧ (s.exited = true ∨ (s.exited = false ∧ s.n = 0)) →
      (runPass b sd env priv g l s).recs = [] ∧
        ((runPass b sd env priv g l s).exited = true ∨
          ((runPass b sd env priv g l s).exited = false ∧ (runPass b sd env priv g l s).n = 0))
  | [], s, hs => by simpa [runPass] using hs
  | (q, qt) :: rest, s, hs => by
    unfold runPass
    by_cases hex : s.exited = true
    · rw [if_pos hex]
      exact hs
    · rw [if_neg hex]
      rcases hs.2 with hh | hh
      · exact absurd hh hex
      · rw [stepOnce_cancel_exit b sd (env s.n) (priv s.p) (g s.gp) q qt (hh.2 ▸ h0)]
        exact ⟨hs.1, Or.inl rfl⟩

theorem foldPass_cancel_inv (b : Benchmark) (sd : Option ℤ) (env : ℕ → StepEnv)
    (priv : ℕ → ℚ) (g : ℕ → ℕ) (L : List (String × ℕ)) (h0 : (env 0).cancelAtCheck = true) :
    ∀ (n : ℕ) (s : LoopState),
      s.recs = [] ∧ (s.exited = true ∨ (s.exited = false ∧ s.n = 0)) →
      ((List.range n).foldl (fun s _ => runPass b sd env priv g L s) s).recs = [] ∧
        (((List.range n).foldl (fun s _ => runPass b sd env priv g L s) s).exited = true ∨
          (((List.range n).foldl (fun s _ => runPass b sd env priv g L s) s).exited = false ∧
            ((List.range n).foldl (fun s _ => runPass b sd env priv g L s) s).n = 0))
  | 0, s, hs => by
    rw [List.range_zero, List.foldl_nil]
    exact hs
  | n + 1, s, hs => by
    rw [List.range_succ, List.foldl_append]
    simp only [List.foldl_cons, List.foldl_nil]
    exact runPass_cancel_first b sd env priv g h0 L _
      (foldPass_cancel_inv b sd env priv g L h0 n s hs)



/-- Claim C2 fails as stated: with the shared context cancelled at time 5 —
consistently with the schedule: the only pre-dispatch check happens at time
0 (before cancellation), the request is dispatched at time 1 and is in
flight at time 5, and the transport honours the cancellation by returning
an error (`start + dur = 6`) — the worker still records the result, because
the late-cancellation guard only drops a result whose `start` lies after the
per-request deadline.  So a query IS recorded after the shared context has
been cancelled. -/
theorem c2_counterexample :
    ((midCancelEnv.cancelAtCheck = true ↔ (5:ℤ) ≤ midCancelEnv.check) ∧
      midCancelEnv.check ≤ midCancelEnv.start ∧ midCancelEnv.start ≤ midCancelEnv.ctxNow ∧
      0 ≤ midCancelEnv.dur ∧ midCancelEnv.start ≤ 5 ∧ (5:ℤ) ≤ midCancelEnv.start + midCancelEnv.dur ∧
      midCancelEnv.transportErr = true) ∧
    ¬(∀ r ∈ (runCounted { Count := 1, Probability := 1, RequestTimeout := 100 } none
        (fun _ => midCancelEnv) (fun _ => 0) (fun _ => 7) ["example.com."] [1]).recs,
        r.start + r.dur < (5:ℤ)) := by
  constructor
  · decide
  · decide

/-- Claim C2, amended: a worker that observes shared-context cancellation at
its first pre-dispatch check records nothing; every record stems from a step
whose pre-dispatch check did NOT observe cancellation, carries that step's
transport outcome and timing, and — when it is an error — has its start at
or before the per-request deadline; and a step whose transport errored with
`start` past the deadline exits the worker without recording (the
late-cancellation guard).  The result of an in-flight request cut short by
cancellation before the deadline IS recorded. -/
theorem c2_recording_vs_cancellation (b : Benchmark) (sd : Option ℤ) (env : ℕ → StepEnv)
    (priv : ℕ → ℚ) (g : ℕ → ℕ) (questions : List String) (qTypes : List ℕ) :
    ((env 0).cancelAtCheck = true →
      (runCounted b sd env priv g questions qTypes).recs = []) ∧
    (∀ r ∈ (runCounted b sd env priv g questions qTypes).recs, ∃ n,
      (env n).cancelAtCheck = false ∧ r.err = (env n).transportErr ∧
      r.start = (env n).start ∧ r.dur = (env n).dur ∧
      (r.err = true → r.start ≤ reqDeadline b sd (env n))) ∧
    (∀ (e : StepEnv) (draw : ℚ) (idd : ℕ) (q : String) (qt : ℕ),
      e.transportErr = true → reqDeadline b sd e < e.start →
      e.cancelAtCheck = false → ¬ b.Probability < draw →
      ¬(0 < b.Rate ∧ e.globalCancel = true) →
      ¬(0 < b.RateLimitWorker ∧ e.workerCancel = true) →
      stepOnce b sd e draw idd q qt = .exit) := by
  simp only [runCounted]
  refine ⟨?_, ?_, ?_⟩
  · intro h0
    exact (foldPass_cancel_inv b sd env priv g (passList questions qTypes) h0
      b.Count.toNat {} ⟨rfl, Or.inr ⟨rfl, rfl⟩⟩).1
  · exact foldPass_rec_source b sd env priv g (passList questions qTypes) b.Count.toNat {}
      (by simp)
  · intro e draw idd q qt herr hlate h1 h2 h3 h4
    exact stepOnce_guard_exit b sd e draw idd q qt herr hlate h1 h2 h3 h4

/-- Witness for C2's amended statement: a worker whose first check observes
cancellation records nothing. -/
theorem c2_witness :
    (runCounted { Count := 1, Probability := 1, RequestTimeout := 100 } none
      (fun _ => { check := 9, cancelAtCheck := true, globalCancel := false,
                  workerCancel := false, start := 9, ctxNow := 9, transportErr := false,
                  resp := none, dur := 0 })
      (fun _ => 0) (fun _ => 7) ["example.com."] [1]).recs = [] :=
  (c2_recording_vs_cancellation { Count := 1, Probability := 1, RequestTimeout := 100 } none
    (fun _ => { check := 9, cancelAtCheck := true, globalCancel := false,
                workerCancel := false, start := 9, ctxNow := 9, transportErr := false,
                resp := none, dur := 0 })
    (fun _ => 0) (fun _ => 7) ["example.com."] [1]).1 rfl



theorem buildRequest_erase_id (b : Benchmark) (q : String) (qt : ℕ) (i j : ℕ) :
    { buildRequest b q qt i with id := 0 } = { buildRequest b q qt j with id := 0 } := by
  have h1 : ∀ a : OptRR, ([a] : List OptRR).getLast? = some a := fun a => rfl
  have h2 : ∀ a : OptRR, ([a] : List OptRR).dropLast = [] := fun a => rfl
  unfold buildRequest
  split_ifs <;>
    simp [setEdns0, addEdnsOpt, appendOptionLast, setDoLast, isEdns0, h1, h2]

theorem buildRequest_quic (b : Benchmark) (hq : b.useQuic = true) (q : String) (qt : ℕ)
    (i j : ℕ) : buildRequest b q qt i = buildRequest b q qt j := by
  unfold buildRequest
  rw [hq]
  simp

theorem stepOnce_g_congr (b : Benchmark) (sd : Option ℤ) (e : StepEnv) (draw : ℚ)
    (q : String) (qt : ℕ) (i j : ℕ) :
    (stepOnce b sd e draw i q qt = .exit → stepOnce b sd e draw j q qt = .exit) ∧
    (stepOnce b sd e draw i q qt = .skip → stepOnce b sd e draw j q qt = .skip) ∧
    (∀ r, stepOnce b sd e draw i q qt = .recd r →
      ∃ r', stepOnce b sd e draw j q qt = .recd r' ∧ stripId r' = stripId r) := by
  unfold stepOnce
  split_ifs with h1 h2 h3 h4 h5
  · exact ⟨fun _ => rfl, fun h => by simp at h, fun r h => by simp at h⟩
  · exact ⟨fun h => by simp at h, fun _ => rfl, fun r h => by simp at h⟩
  · exact ⟨fun _ => rfl, fun h => by simp at h, fun r h => by simp at h⟩
  · exact ⟨fun _ => rfl, fun h => by simp at h, fun r h => by simp at h⟩
  · exact ⟨fun _ => rfl, fun h => by simp at h, fun r h => by simp at h⟩
  · refine ⟨fun h => by simp at h, fun h => by simp at h, fun r h => ?_⟩
    have hr : r = { req := buildRequest b q qt i, resp := e.resp, err := e.transportErr,
                    start := e.start, dur := e.dur } := by
      cases h
      rfl
    subst hr
    refine ⟨{ req := buildRequest b q qt j, resp := e.resp, err := e.transportErr,
              start := e.start, dur := e.dur }, rfl, ?_⟩
    unfold stripId
    simp only
    rw [buildRequest_erase_id b q qt j i]

theorem stepOnce_quic_congr (b : Benchmark) (sd : Option ℤ) (e : StepEnv) (draw : ℚ)
    (q : String) (qt : ℕ) (i j : ℕ) (hq : b.useQuic = true) :
    stepOnce b sd e draw i q qt = stepOnce b sd e draw j q qt := by
  unfold stepOnce
  rw [buildRequest_quic b hq q qt i j]



theorem runPass_g_invariant (b : Benchmark) (sd : Option ℤ) (env : ℕ → StepEnv)
    (priv : ℕ → ℚ) (g g' : ℕ → ℕ) :
    ∀ (l : List (String × ℕ)) (s s' : LoopState),
      s.n = s'.n → s.p = s'.p → s.gp = s'.gp → s.exited = s'.exited →
      s.recs.map stripId = s'.recs.map stripId →
      ((runPass b sd env priv g l s).n = (runPass b sd env priv g' l s').n ∧
       (runPass b sd env priv g l s).p = (runPass b sd env priv g' l s').p ∧
       (runPass b sd env priv g l s).gp = (runPass b sd env priv g' l s').gp ∧
       (runPass b sd env priv g l s).exited = (runPass b sd env priv g' l s').exited ∧
       (runPass b sd env priv g l s).recs.map stripId =
         (runPass b sd env priv g' l s').recs.map stripId)
  | [], s, s', hn, hp, hgp, hex, hrecs => by
    simp only [runPass]
    exact ⟨hn, hp, hgp, hex, hrecs⟩
  | (q, qt) :: rest, s, s', hn, hp, hgp, hex, hrecs => by
    obtain ⟨n0, p0, gp0, recs0, ex0⟩ := s
    obtain ⟨n', p', gp', recs', ex'⟩ := s'
    simp only at hn hp hgp hex hrecs
    subst hn
    subst hp
    subst hgp
    subst hex
    unfold runPass
    by_cases hexit : ex0 = true
    · rw [if_pos hexit, if_pos hexit]
      exact ⟨rfl, rfl, rfl, rfl, hrecs⟩
    · rw [if_neg hexit, if_neg hexit]
      have hcongr := stepOnce_g_congr b sd (env n0) (priv p0) q qt (g gp0) (g' gp0)
      cases hst : stepOnce b sd (env n0) (priv p0) (g gp0) q qt with
      | exit =>
        rw [hcongr.1 hst]
        exact ⟨rfl, rfl, rfl, rfl, hrecs⟩
      | skip =>
        rw [hcongr.2.1 hst]
        exact runPass_g_invariant b sd env priv g g' rest _ _ rfl rfl rfl rfl hrecs
      | recd r =>
        obtain ⟨r', hst', hstrip⟩ := hcongr.2.2 r hst
        rw [hst']
        refine runPass_g_invariant b sd env priv g g' rest _ _ rfl rfl rfl rfl ?_
        simp only [List.map_append, List.map_cons, List.map_nil]
        rw [hrecs, hstrip]

theorem foldPass_g_invariant (b : Benchmark) (sd : Option ℤ) (env : ℕ → StepEnv)
    (priv : ℕ → ℚ) (g g' : ℕ → ℕ) (L : List (String × ℕ)) :
    ∀ (n : ℕ) (s s' : LoopState),
      s.n = s'.n → s.p = s'.p → s.gp = s'.gp → s.exited = s'.exited →
      s.recs.map stripId = s'.recs.map stripId →
      ((((List.range n).foldl (fun s _ => runPass b sd env priv g L s) s)).n =
        (((List.range n).foldl (fun s _ => runPass b sd env priv g' L s) s')).n ∧
       (((List.range n).foldl (fun s _ => runPass b sd env priv g L s) s)).p =
        (((List.range n).foldl (fun s _ => runPass b sd env priv g' L s) s')).p ∧
       (((List.range n).foldl (fun s _ => runPass b sd env priv g L s) s)).gp =
        (((List.range n).foldl (fun s _ => runPass b sd env priv g' L s) s')).gp ∧
       (((List.range n).foldl (fun s _ => runPass b sd env priv g L s) s)).exited =
        (((List.range n).foldl (fun s _ => runPass b sd env priv g' L s) s')).exited ∧
       (((List.range n).foldl (fun s _ => runPass b sd env priv g L s) s)).recs.map stripId =
        (((List.range n).foldl (fun s _ => runPass b sd env priv g' L s) s')).recs.map stripId)
  | 0, s, s', hn, hp, hgp, hex, hrecs => by
    rw [List.range_zero]
    exact ⟨hn, hp, hgp, hex, hrecs⟩
  | n + 1, s, s', hn, hp, hgp, hex, hrecs => by
    rw [List.range_succ, List.foldl_append, List.foldl_append]
    simp only [List.foldl_cons, List.foldl_nil]
    obtain ⟨ihn, ihp, ihgp, ihex, ihrecs⟩ :=
      foldPass_g_invariant b sd env priv g g' L n s s' hn hp hgp hex hrecs
    exact runPass_g_invariant b sd env priv g g' L _ _ ihn ihp ihgp ihex ihrecs

theorem runPass_quic (b : Benchmark) (sd : Option ℤ) (env : ℕ → StepEnv)
    (priv : ℕ → ℚ) (g g' : ℕ → ℕ) (hq : b.useQuic = true) :
    ∀ (l : List (String × ℕ)) (s : LoopState),
      runPass b sd env priv g l s = runPass b sd env priv g' l s
  | [], s => rfl
  | (q, qt) :: rest, s => by
    unfold runPass
    rw [stepOnce_quic_congr b sd (env s.n) (priv s.p) q qt (g s.gp) (g' s.gp) hq]
    by_cases hexit : s.exited = true
    · rw [if_pos hexit, if_pos hexit]
    · rw [if_neg hexit, if_neg hexit]
      cases stepOnce b sd (env s.n) (priv s.p) (g' s.gp) q qt with
      | exit => rfl
      | skip => exact runPass_quic b sd env priv g g' hq rest _
      | recd r => exact runPass_quic b sd env priv g g' hq rest _

/-- Claim C7 fails as stated: two runs with the same worker-private random
stream but different process-global streams produce different sink records
(the request Id of line 455 is drawn from the global `math/rand` source, not
from the worker's `rando`), so a worker's output is NOT a deterministic
function of its own seed. -/
theorem c7_counterexample :
    (runCounted { Count := 1, Probability := 1, RequestTimeout := 100 } none
      (fun _ => benignEnv) (fun _ => 0) (fun _ => 7) ["example.com."] [1]).recs ≠
    (runCounted { Count := 1, Probability := 1, RequestTimeout := 100 } none
      (fun _ => benignEnv) (fun _ => 0) (fun _ => 9) ["example.com."] [1]).recs := by
  decide

/-- Claim C7, amended: the probability draw and the inter-request delay come
from the worker-private PRNG (seeded from the clock only, line 415) while the
request Id comes from the process-global source; consequently everything in
a worker's record list EXCEPT the request Ids is invariant under a change of
the global stream, and under QUIC (Id fixed to 0) the whole run is. -/
theorem c7_worker_randomness (b : Benchmark) (sd : Option ℤ) (env : ℕ → StepEnv)
    (priv : ℕ → ℚ) (g g' : ℕ → ℕ) (questions : List String) (qTypes : List ℕ) :
    ((runCounted b sd env priv g questions qTypes).recs.map stripId =
      (runCounted b sd env priv g' questions qTypes).recs.map stripId) ∧
    (b.useQuic = true →
      runCounted b sd env priv g questions qTypes =
        runCounted b sd env priv g' questions qTypes) := by
  constructor
  · simp only [runCounted]
    exact (foldPass_g_invariant b sd env priv g g' (passList questions qTypes)
      b.Count.toNat {} {} rfl rfl rfl rfl rfl).2.2.2.2
  · intro hq
    simp only [runCounted]
    induction b.Count.toNat with
    | zero => rfl
    | succ n ih =>
      rw [List.range_succ, List.foldl_append, List.foldl_append]
      simp only [List.foldl_cons, List.foldl_nil]
      rw [ih, runPass_quic b sd env priv g g' hq]

/-- Witness for C7's amended statement: under QUIC the run is identical for
two different global streams. -/
theorem c7_witness :
    runCounted { Count := 1, Probability := 1, RequestTimeout := 100, useQuic := true } none
      (fun _ => benignEnv) (fun _ => 0) (fun _ => 7) ["example.com."] [1] =
    runCounted { Count := 1, Probability := 1, RequestTimeout := 100, useQuic := true } none
      (fun _ => benignEnv) (fun _ => 0) (fun _ => 9) ["example.com."] [1] :=
  (c7_worker_randomness { Count := 1, Probability := 1, RequestTimeout := 100, useQuic := true }
    none (fun _ => benignEnv) (fun _ => 0) (fun _ => 7) (fun _ => 9) ["example.com."] [1]).2 rfl


/-- Claim C5: every built request has exactly one (INET) question, the RD
flag from the config, a 16-bit Id that is the global draw (0 under QUIC);
its additional section carries an OPT exactly when `Edns0 > 0`, `EdnsOpt` is
set, or `DNSSEC` is set; the OPT's buffer size is `Edns0` when that is
positive and the default 1232 otherwise (in particular when only DNSSEC
forces one); DNSSEC sets the DO bit; and a set `EdnsOpt` contributes exactly
one local option with the parsed code and hex-decoded data.  The `EdnsOpt`
hypothesis records that `Run` reaches this code only after `init` validated
the option (on a malformed option without `:` the Go code would panic). -/
theorem c5_request_shape (b : Benchmark) (q : String) (qt idDraw : ℕ)
    (hid : idDraw < 65536)
    (hopt : b.EdnsOpt = "" ∨ ednsOptValid b.EdnsOpt = true) :
    buildRequest b q qt idDraw =
      { id := (if b.useQuic then 0 else idDraw), recursionDesired := b.Recurse,
        question := [{ name := q, qtype := qt, qclass := 1 }], rcode := 0,
        extra :=
          if 0 < b.Edns0 then
            [{ udpSize := b.Edns0, doBit := b.DNSSEC,
               options := if b.EdnsOpt ≠ "" then
                   [(goParseUint16 ((splitChar ':' b.EdnsOpt.data).getD 0 []),
                     (goHexDecode ((splitChar ':' b.EdnsOpt.data).getD 1 [])).1)]
                 else [] }]
          else if b.EdnsOpt ≠ "" then
            [{ udpSize := 1232, doBit := b.DNSSEC,
               options := [(goParseUint16 ((splitChar ':' b.EdnsOpt.data).getD 0 []),
                            (goHexDecode ((splitChar ':' b.EdnsOpt.data).getD 1 [])).1)] }]
          else if b.DNSSEC then [{ udpSize := 1232, doBit := true, options := [] }]
          else [] } ∧
    (buildRequest b q qt idDraw).id < 65536 ∧
    ((isEdns0 (buildRequest b q qt idDraw)).isSome ↔
      (0 < b.Edns0 ∨ b.EdnsOpt ≠ "" ∨ b.DNSSEC = true)) := by
  have h1 : ∀ a : OptRR, ([a] : List OptRR).getLast? = some a := fun a => rfl
  have h2 : ∀ a : OptRR, ([a] : List OptRR).dropLast = [] := fun a => rfl
  have hmaster : buildRequest b q qt idDraw =
      { id := (if b.useQuic then 0 else idDraw), recursionDesired := b.Recurse,
        question := [{ name := q, qtype := qt, qclass := 1 }], rcode := 0,
        extra :=
          if 0 < b.Edns0 then
            [{ udpSize := b.Edns0, doBit := b.DNSSEC,
               options := if b.EdnsOpt ≠ "" then
                   [(goParseUint16 ((splitChar ':' b.EdnsOpt.data).getD 0 []),
                     (goHexDecode ((splitChar ':' b.EdnsOpt.data).getD 1 [])).1)]
                 else [] }]
          else if b.EdnsOpt ≠ "" then
            [{ udpSize := 1232, doBit := b.DNSSEC,
               options := [(goParseUint16 ((splitChar ':' b.EdnsOpt.data).getD 0 []),
                            (goHexDecode ((splitChar ':' b.EdnsOpt.data).getD 1 [])).1)] }]
          else if b.DNSSEC then [{ udpSize := 1232, doBit := true, options := [] }]
          else [] } := by
    unfold buildRequest
    cases hD : b.DNSSEC <;> by_cases he : 0 < b.Edns0 <;> by_cases ho : b.EdnsOpt = "" <;>
      simp [hD, he, ho, setEdns0, addEdnsOpt, appendOptionLast, setDoLast, isEdns0, h1, h2]
  refine ⟨hmaster, ?_, ?_⟩
  · rw [hmaster]
    by_cases hq : b.useQuic = true <;> simp [hq, hid]
  · rw [hmaster]
    unfold isEdns0
    cases hD : b.DNSSEC <;> by_cases he : 0 < b.Edns0 <;> by_cases ho : b.EdnsOpt = "" <;>
      simp [hD, he, ho, h1]

/-- Witness for C5 at the claim's concrete example: ednsOpt
`"65001:DEADBEEF"`, dnssecDO set, ednsBufferSize 0 — the request carries one
OPT with buffer size 1232, DO set, and the single local option
(65001, de ad be ef), one question, and the drawn 16-bit Id. -/
theorem c5_witness :
    buildRequest { EdnsOpt := "65001:DEADBEEF", DNSSEC := true, Recurse := true }
      "example.com." 1 1234 =
      { id := 1234, recursionDesired := true,
        question := [{ name := "example.com.", qtype := 1, qclass := 1 }], rcode := 0,
        extra := [{ udpSize := 1232, doBit := true,
                    options := [(65001, [222, 173, 190, 239])] }] } := by
  have h := (c5_request_shape { EdnsOpt := "65001:DEADBEEF", DNSSEC := true, Recurse := true }
    "example.com." 1 1234 (by decide) (Or.inr (by decide))).1
  exact h.trans (by decide)


/-- Claim C8 fails in one point: EVERY line of a fetched body becomes a
question, including empty lines (which `dns.Fqdn` turns into `"."`); the
claim's "each non-empty line" filter is not in the code.  Concretely, a body
`"a\n\nb"` yields `["a.", ".", "b."]` where the claim's loader (modelled by
`specLoadNonEmpty`) yields `["a.", "b."]`. -/
theorem c8_counterexample :
    prepareQuestions (fun u => if u = "http://h" then .ok (200, "a\n\nb") else .error "no")
      ["http://h", "x"] = .ok ["a.", ".", "b.", "x."] ∧
    specLoadNonEmpty (fun u => if u = "http://h" then .ok (200, "a\n\nb") else .error "no")
      ["http://h", "x"] = .ok ["a.", "b.", "x."] ∧
    (Except.ok ["a.", ".", "b.", "x."] : Except String (List String)) ≠
      .ok ["a.", "b.", "x."] := by
  refine ⟨by decide, by decide, by decide⟩

theorem prepareQuestions_eq_specLoadAllLines
    (fetch : String → Except String (ℕ × String)) :
    ∀ queries : List String,
      prepareQuestions fetch queries = specLoadAllLines fetch queries
  | [] => rfl
  | q :: rest => by
    have ih := prepareQuestions_eq_specLoadAllLines fetch rest
    unfold prepareQuestions specLoadAllLines loadEntryAllLines
    by_cases hurl : (isHTTPUrl q).1 = true
    · rw [if_pos hurl, if_pos hurl]
      cases hf : fetch q with
      | error e => rfl
      | ok sb =>
        obtain ⟨status, body⟩ := sb
        by_cases hst : status < 200 ∨ 299 < status
        · simp [hst]
        · simp only [hst, if_false, ih]
          cases hspec : specLoadAllLines fetch rest with
          | error e => simp [hst, hspec]
          | ok qs => simp [hst, hspec]
    · rw [if_neg hurl, if_neg hurl]
      rw [ih]
      cases hspec : specLoadAllLines fetch rest with
      | error e => simp [hspec]
      | ok qs => simp [hspec]

/-- Claim C8, amended (the only change: empty lines are kept): the loader
maps each entry in order — an HTTP(S) URL entry is fetched, a transport
error or non-2xx status is fatal, and each scanned line of the body (empty
ones included, becoming `"."`) becomes one question; every other entry is
one literal name; all names are FQDN-normalized (trailing dot); ordering is
preserved across entries and within each fetched body.  Stated as
extensional equality with the spec-style per-entry loader. -/
theorem c8_prepareQuestions_spec (fetch : String → Except String (ℕ × String))
    (queries : List String) :
    prepareQuestions fetch queries = specLoadAllLines fetch queries :=
  prepareQuestions_eq_specLoadAllLines fetch queries


theorem takeDigits_append_eq : ∀ cs : List Char, (takeDigits cs).1 ++ (takeDigits cs).2 = cs
  | [] => rfl
  | c :: rest => by
    unfold takeDigits
    by_cases h : c.isDigit
    · simp only [h, if_true]
      simpa using takeDigits_append_eq rest
    · simp [h]

theorem takeDigits_all_digits : ∀ cs : List Char, (takeDigits cs).1.all Char.isDigit = true
  | [] => rfl
  | c :: rest => by
    unfold takeDigits
    by_cases h : c.isDigit
    · simpa [h] using takeDigits_all_digits rest
    · simp [h]

theorem takeDigits_head_not_digit : ∀ (cs : List Char) (c : Char) (rest : List Char),
    (takeDigits cs).2 = c :: rest → c.isDigit = false
  | [], c, rest, h => by simp [takeDigits] at h
  | c0 :: cs0, c, rest, h => by
    unfold takeDigits at h
    by_cases h0 : c0.isDigit
    · simp only [h0, if_true] at h
      exact takeDigits_head_not_digit cs0 c rest (by simpa using h)
    · rw [if_neg h0] at h
      have h' : c0 :: cs0 = c :: rest := h
      injection h' with h1 h2
      subst h1
      simpa using h0

theorem takeDigits_of_append (ds tail : List Char) (hds : ds.all Char.isDigit = true)
    (htail : tail = [] ∨ ∃ c t, tail = c :: t ∧ c.isDigit = false) :
    takeDigits (ds ++ tail) = (ds, tail) := by
  induction ds with
  | nil =>
    rcases htail with rfl | ⟨c, t, rfl, hc⟩
    · rfl
    · simp [takeDigits, hc]
  | cons d ds ih =>
    simp only [List.all_cons, Bool.and_eq_true] at hds
    have := ih hds.2
    simp [takeDigits, hds.1, this]


theorem suffixSplit_spec (xs : List Char) (u : String) (rest : List Char)
    (h : suffixSplit xs = some (u, rest)) :
    xs = u.data ++ rest ∧
      (u = "ms" ∨ u = "ns" ∨ u = "s" ∨ u = "m" ∨ u = "h" ∨ u = "d" ∨ u = "w") := by
  have d1 : ("ms" : String).data = ['m', 's'] := rfl
  have d2 : ("ns" : String).data = ['n', 's'] := rfl
  have d3 : ("s" : String).data = ['s'] := rfl
  have d4 : ("m" : String).data = ['m'] := rfl
  have d5 : ("h" : String).data = ['h'] := rfl
  have d6 : ("d" : String).data = ['d'] := rfl
  have d7 : ("w" : String).data = ['w'] := rfl
  unfold suffixSplit at h
  split at h <;>
    first
      | exact Option.noConfusion h
      | (simp only [Option.some.injEq, Prod.mk.injEq] at h
         obtain ⟨rfl, rfl⟩ := h
         exact ⟨rfl, by simp⟩)

theorem suffixSplit_complete (u : String) (rest : List Char)
    (hu : u = "ms" ∨ u = "ns" ∨ u = "s" ∨ u = "m" ∨ u = "h" ∨ u = "d" ∨ u = "w")
    (hrest : rest = [] ∨ ∃ t, rest = '-' :: t) :
    suffixSplit (u.data ++ rest) = some (u, rest) := by
  rcases hu with rfl | rfl | rfl | rfl | rfl | rfl | rfl <;>
    (rcases hrest with rfl | ⟨t, rfl⟩ <;> rfl)

theorem matchDuration_spec (cs : List Char) (n : ℕ) (u : String) (rest : List Char)
    (h : matchDuration cs = some (n, u, rest)) :
    ∃ ds : List Char, cs = ds ++ u.data ++ rest ∧ ds ≠ [] ∧ ds.all Char.isDigit = true ∧
      n = digitsToNat ds ∧
      (u = "ms" ∨ u = "ns" ∨ u = "s" ∨ u = "m" ∨ u = "h" ∨ u = "d" ∨ u = "w") := by
  unfold matchDuration at h
  by_cases hds : (takeDigits cs).1 = []
  · rw [if_pos hds] at h
    simp at h
  · rw [if_neg hds] at h
    cases hsuf : suffixSplit (takeDigits cs).2 with
    | none => rw [hsuf] at h; simp at h
    | some p =>
      obtain ⟨u', rest'⟩ := p
      rw [hsuf] at h
      simp only [Option.some.injEq, Prod.mk.injEq] at h
      obtain ⟨hn, hu, hrest⟩ := h
      subst hu
      subst hrest
      obtain ⟨hdec, hunits⟩ := suffixSplit_spec _ _ _ hsuf
      refine ⟨(takeDigits cs).1, ?_, hds, takeDigits_all_digits cs, hn.symm, hunits⟩
      rw [List.append_assoc, ← hdec, takeDigits_append_eq]

theorem matchDuration_complete (ds : List Char) (u : String) (rest : List Char)
    (hds : ds ≠ []) (hdig : ds.all Char.isDigit = true)
    (hu : u = "ms" ∨ u = "ns" ∨ u = "s" ∨ u = "m" ∨ u = "h" ∨ u = "d" ∨ u = "w")
    (hrest : rest = [] ∨ ∃ t, rest = '-' :: t) :
    matchDuration (ds ++ u.data ++ rest) = some (digitsToNat ds, u, rest) := by
  have hhead : ∃ c t, u.data ++ rest = c :: t ∧ c.isDigit = false := by
    rcases hu with rfl | rfl | rfl | rfl | rfl | rfl | rfl <;>
      exact ⟨_, _, rfl, by decide⟩
  have htd : takeDigits (ds ++ (u.data ++ rest)) = (ds, u.data ++ rest) :=
    takeDigits_of_append ds (u.data ++ rest) hdig (Or.inr hhead)
  unfold matchDuration
  rw [List.append_assoc, htd]
  simp only [hds, if_neg (by simpa using hds)]
  rw [suffixSplit_complete u rest hu hrest]
  simp

theorem rev_head_digit (ds : List Char) (hds : ds ≠ []) (hdig : ds.all Char.isDigit = true) :
    ∃ d0 t0, ds.reverse = d0 :: t0 ∧ d0.isDigit = true ∧
      d0 ≠ 'm' ∧ d0 ≠ 'n' ∧ d0 ≠ 's' := by
  cases hdr : ds.reverse with
  | nil => exact absurd (by simpa using hdr) hds
  | cons d0 t0 =>
    have hmem : d0 ∈ ds := by
      have : d0 ∈ ds.reverse := by rw [hdr]; exact List.mem_cons_self d0 t0
      simpa using this
    have hd0 : d0.isDigit = true := List.all_eq_true.mp hdig d0 hmem
    refine ⟨d0, t0, rfl, hd0, ?_, ?_, ?_⟩ <;>
      (intro hc; rw [hc] at hd0; exact absurd hd0 (by decide))

theorem specTokenVal_singleton (ds : List Char) (c : Char)
    (hds : ds ≠ []) (hdig : ds.all Char.isDigit = true)
    (hc : c = 's' ∨ c = 'm' ∨ c = 'h' ∨ c = 'd' ∨ c = 'w') :
    specTokenVal (ds ++ [c]) = some (digitsToNat ds, String.singleton c) := by
  obtain ⟨d0, t0, hdr, hd0, hm, hn, hs⟩ := rev_head_digit ds hds hdig
  have hback : (d0 :: t0).reverse = ds := by rw [← hdr, List.reverse_reverse]
  have hrev : (ds ++ [c]).reverse = c :: d0 :: t0 := by simp [hdr]
  unfold specTokenVal
  rw [hrev]
  split
  · rename_i heq
    injection heq with h1 h2
    injection h2 with h2a h2b
    exact absurd h2a hm
  · rename_i heq
    injection heq with h1 h2
    injection h2 with h2a h2b
    exact absurd h2a hn
  · rename_i c' dsr hne1 hne2 heq
    injection heq with h1 h2
    subst h1
    rw [← h2]
    rw [if_pos ⟨hc, by simp, by rw [← hdr]; simpa [List.all_reverse] using hdig⟩]
    rw [show (d0 :: t0).reverse = ds from hback]
  · rename_i heq
    exact absurd heq (by simp)

theorem specTokenVal_complete (ds : List Char) (u : String)
    (hds : ds ≠ []) (hdig : ds.all Char.isDigit = true)
    (hu : u = "ms" ∨ u = "ns" ∨ u = "s" ∨ u = "m" ∨ u = "h" ∨ u = "d" ∨ u = "w") :
    specTokenVal (ds ++ u.data) = some (digitsToNat ds, u) := by
  rcases hu with rfl | rfl | rfl | rfl | rfl | rfl | rfl
  · have hrev : (ds ++ ("ms" : String).data).reverse = 's' :: 'm' :: ds.reverse := by
      simp [show ("ms" : String).data = ['m', 's'] from rfl]
    unfold specTokenVal
    rw [hrev]
    simp [hds, List.all_reverse, hdig]
  · have hrev : (ds ++ ("ns" : String).data).reverse = 's' :: 'n' :: ds.reverse := by
      simp [show ("ns" : String).data = ['n', 's'] from rfl]
    unfold specTokenVal
    rw [hrev]
    simp [hds, List.all_reverse, hdig]
  · exact specTokenVal_singleton ds 's' hds hdig (by simp)
  · exact specTokenVal_singleton ds 'm' hds hdig (by simp)
  · exact specTokenVal_singleton ds 'h' hds hdig (by simp)
  · exact specTokenVal_singleton ds 'd' hds hdig (by simp)
  · exact specTokenVal_singleton ds 'w' hds hdig (by simp)

theorem specTokenVal_spec (cs : List Char) (n : ℕ) (u : String)
    (h : specTokenVal cs = some (n, u)) :
    ∃ ds : List Char, cs = ds ++ u.data ∧ ds ≠ [] ∧ ds.all Char.isDigit = true ∧
      n = digitsToNat ds ∧
      (u = "ms" ∨ u = "ns" ∨ u = "s" ∨ u = "m" ∨ u = "h" ∨ u = "d" ∨ u = "w") := by
  unfold specTokenVal at h
  split at h
  · rename_i dsr heq
    split at h
    · rename_i hcond
      simp only [Option.some.injEq, Prod.mk.injEq] at h
      obtain ⟨hn, hu⟩ := h
      subst hu
      have hcs : cs = dsr.reverse ++ ("ms" : String).data := by
        have := congrArg List.reverse heq
        simpa using this
      exact ⟨dsr.reverse, hcs, by simpa using hcond.1, by simpa [List.all_reverse] using hcond.2,
        hn.symm, by simp⟩
    · exact absurd h (by simp)
  · rename_i dsr heq
    split at h
    · rename_i hcond
      simp only [Option.some.injEq, Prod.mk.injEq] at h
      obtain ⟨hn, hu⟩ := h
      subst hu
      have hcs : cs = dsr.reverse ++ ("ns" : String).data := by
        have := congrArg List.reverse heq
        simpa using this
      exact ⟨dsr.reverse, hcs, by simpa using hcond.1, by simpa [List.all_reverse] using hcond.2,
        hn.symm, by simp⟩
    · exact absurd h (by simp)
  · rename_i c dsr hne1 hne2 heq
    split at h
    · rename_i hcond
      simp only [Option.some.injEq, Prod.mk.injEq] at h
      obtain ⟨hn, hu⟩ := h
      subst hu
      have hcs : cs = dsr.reverse ++ (String.singleton c).data := by
        have := congrArg List.reverse heq
        simpa using this
      refine ⟨dsr.reverse, hcs, by simpa using hcond.2.1,
        by simpa [List.all_reverse] using hcond.2.2, hn.symm, ?_⟩
      rcases hcond.1 with rfl | rfl | rfl | rfl | rfl <;> decide
    · exact absurd h (by simp)
  · exact absurd h (by simp)

theorem unit_no_dash (u : String)
    (hu : u = "ms" ∨ u = "ns" ∨ u = "s" ∨ u = "m" ∨ u = "h" ∨ u = "d" ∨ u = "w") :
    '-' ∉ u.data := by
  rcases hu with rfl | rfl | rfl | rfl | rfl | rfl | rfl <;> decide

theorem digits_no_dash (ds : List Char) (hdig : ds.all Char.isDigit = true) : '-' ∉ ds := by
  intro hm
  exact absurd (List.all_eq_true.mp hdig _ hm) (by decide)

theorem matchDelay_single_iff (cs : List Char) (n1 : ℕ) (u1 : String) :
    matchDelay cs = some ((n1, u1), none) ↔ matchDuration cs = some (n1, u1, []) := by
  constructor
  · intro h
    unfold matchDelay at h
    split at h
    · exact absurd h (by simp)
    · rename_i n u rest heq
      split at h
      · simp only [Option.some.injEq, Prod.mk.injEq] at h
        obtain ⟨⟨hn, hu⟩, -⟩ := h
        subst hn
        subst hu
        exact heq
      · split at h
        · exact absurd h (by simp)
        · exact absurd h (by simp)
      · exact absurd h (by simp)
  · intro h
    unfold matchDelay
    rw [h]

theorem matchDelay_pair_iff (cs : List Char) (n1 n2 : ℕ) (u1 u2 : String) :
    matchDelay cs = some ((n1, u1), some (n2, u2)) ↔
      ∃ rest2, matchDuration cs = some (n1, u1, '-' :: rest2) ∧
        matchDuration rest2 = some (n2, u2, []) := by
  constructor
  · intro h
    unfold matchDelay at h
    split at h
    · exact absurd h (by simp)
    · rename_i n u rest heq
      split at h
      · exact absurd h (by simp)
      · rename_i rest2
        split at h
        · rename_i n2' u2' heq2
          simp only [Option.some.injEq, Prod.mk.injEq] at h
          obtain ⟨⟨hn, hu⟩, hn2, hu2⟩ := h
          subst hn
          subst hu
          subst hn2
          subst hu2
          exact ⟨rest2, heq, heq2⟩
        · exact absurd h (by simp)
      · exact absurd h (by simp)
  · rintro ⟨rest2, h1, h2⟩
    unfold matchDelay
    rw [h1]
    simp [h2]

theorem matchDelay_none_single (cs : List Char) (h : matchDelay cs = none) (n : ℕ)
    (u : String) : matchDuration cs = some (n, u, []) → False := by
  intro hmd
  rw [(matchDelay_single_iff cs n u).mpr hmd] at h
  exact Option.noConfusion h

theorem parseRequestDelay_iff_spec (s : String) (hs : s ≠ "") :
    (parseRequestDelay s).isOk = true ↔ specDelayOk s = true := by
  unfold parseRequestDelay specDelayOk
  rw [if_neg hs]
  cases hmd : matchDelay s.data with
  | none =>
    constructor
    · intro h
      simp [Except.isOk, Except.toBool] at h
    · intro h
      exfalso
      cases hsp : splitChar '-' s.data with
      | nil => exact absurd hsp (splitChar_ne_nil _ _)
      | cons a tail =>
        cases tail with
        | nil =>
          rw [hsp] at h
          cases htv : specTokenVal a with
          | none => simp [htv] at h
          | some p =>
            obtain ⟨n, u⟩ := p
            obtain ⟨hdec0, hnod⟩ := splitChar_single '-' s.data a hsp
            obtain ⟨ds, hdec, hne, hdig, hn, hu⟩ := specTokenVal_spec a n u htv
            have hfull : matchDuration s.data = some (n, u, []) := by
              rw [hdec0, hdec, hn]
              have := matchDuration_complete ds u [] hne hdig hu (Or.inl rfl)
              simpa using this
            exact matchDelay_none_single s.data hmd n u hfull
        | cons c tail2 =>
          cases tail2 with
          | nil =>
            rw [hsp] at h
            cases htv1 : specTokenVal a with
            | none => simp [htv1] at h
            | some p1 =>
              obtain ⟨n1, u1⟩ := p1
              cases htv2 : specTokenVal c with
              | none => simp [htv1, htv2] at h
              | some p2 =>
                obtain ⟨n2, u2⟩ := p2
                obtain ⟨hdec0, hnoda, hnodc⟩ := splitChar_pair '-' s.data a c hsp
                obtain ⟨ds1, hdec1, hne1, hdig1, hn1, hu1⟩ := specTokenVal_spec a n1 u1 htv1
                obtain ⟨ds2, hdec2, hne2, hdig2, hn2, hu2⟩ := specTokenVal_spec c n2 u2 htv2
                have hm1 : matchDuration s.data = some (n1, u1, '-' :: c) := by
                  rw [hdec0, hdec1, hn1]
                  have := matchDuration_complete ds1 u1 ('-' :: c) hne1 hdig1 hu1
                    (Or.inr ⟨c, rfl⟩)
                  simpa [List.append_assoc] using this
                have hm2 : matchDuration c = some (n2, u2, []) := by
                  rw [hdec2, hn2]
                  have := matchDuration_complete ds2 u2 [] hne2 hdig2 hu2 (Or.inl rfl)
                  simpa using this
                have : matchDelay s.data = some ((n1, u1), some (n2, u2)) :=
                  (matchDelay_pair_iff s.data n1 n2 u1 u2).mpr ⟨c, hm1, hm2⟩
                rw [this] at hmd
                exact Option.noConfusion hmd
          | cons c2 tail3 =>
            rw [hsp] at h
            simp at h
  | some p =>
    obtain ⟨p1, o2⟩ := p
    obtain ⟨nn1, uu1⟩ := p1
    cases o2 with
    | none =>
      have hmd1 : matchDuration s.data = some (nn1, uu1, []) :=
        (matchDelay_single_iff s.data nn1 uu1).mp hmd
      obtain ⟨ds, hdec, hne, hdig, hn, hu⟩ := matchDuration_spec s.data nn1 uu1 [] hmd1
      rw [List.append_nil] at hdec
      have hnodash : '-' ∉ s.data := by
        rw [hdec]
        intro hmem
        rcases List.mem_append.mp hmem with hmem | hmem
        · exact digits_no_dash ds hdig hmem
        · exact unit_no_dash uu1 hu hmem
      have hsp : splitChar '-' s.data = [s.data] := splitChar_no_sep '-' s.data hnodash
      have htv : specTokenVal s.data = some (nn1, uu1) := by
        rw [hdec, specTokenVal_complete ds uu1 hne hdig hu, hn]
      simp only [hsp, htv]
      cases hgp : goParseDuration nn1 uu1 with
      | error e => simp [hgp, Except.isOk, Except.toBool]
      | ok d1 => simp [hgp, Except.isOk, Except.toBool]
    | some p2 =>
      obtain ⟨nn2, uu2⟩ := p2
      obtain ⟨rest2, hmd1, hmd2⟩ := (matchDelay_pair_iff s.data nn1 nn2 uu1 uu2).mp hmd
      obtain ⟨ds1, hdec1, hne1, hdig1, hn1, hu1⟩ :=
        matchDuration_spec s.data nn1 uu1 ('-' :: rest2) hmd1
      obtain ⟨ds2, hdec2, hne2, hdig2, hn2, hu2⟩ := matchDuration_spec rest2 nn2 uu2 [] hmd2
      rw [List.append_nil] at hdec2
      have hnoda : '-' ∉ ds1 ++ uu1.data := by
        intro hmem
        rcases List.mem_append.mp hmem with hmem | hmem
        · exact digits_no_dash ds1 hdig1 hmem
        · exact unit_no_dash uu1 hu1 hmem
      have hnodc : '-' ∉ rest2 := by
        rw [hdec2]
        intro hmem
        rcases List.mem_append.mp hmem with hmem | hmem
        · exact digits_no_dash ds2 hdig2 hmem
        · exact unit_no_dash uu2 hu2 hmem
      have hsp : splitChar '-' s.data = [ds1 ++ uu1.data, rest2] := by
        apply (splitChar_eq_pair_iff '-' s.data (ds1 ++ uu1.data) rest2).mpr
        refine ⟨?_, hnoda, hnodc⟩
        rw [hdec1, List.append_assoc]
      have htv1 : specTokenVal (ds1 ++ uu1.data) = some (nn1, uu1) := by
        rw [specTokenVal_complete ds1 uu1 hne1 hdig1 hu1, hn1]
      have htv2 : specTokenVal rest2 = some (nn2, uu2) := by
        rw [hdec2, specTokenVal_complete ds2 uu2 hne2 hdig2 hu2, hn2]
      simp only [hsp, htv1, htv2]
      cases hg1 : goParseDuration nn1 uu1 with
      | error e => simp [hg1, Except.isOk, Except.toBool]
      | ok d1 =>
        cases hg2 : goParseDuration nn2 uu2 with
        | error e => simp [hg1, hg2, Except.isOk, Except.toBool]
        | ok d2 =>
          simp only [hg1, hg2]
          by_cases hcond : 0 < d2 ∧ 0 < d1 ∧ d2 - d1 ≤ 0
          · rw [if_pos hcond]
            simp [Except.isOk, Except.toBool, hcond.1, hcond.2.1, hcond.2.2]
          · rw [if_neg hcond]
            simp [Except.isOk, Except.toBool, hcond]
            omega

/-- C6 (corrected): for every non-empty delay string the parser accepts
exactly the amended grammar `specDelayOk`: the string split on `-` into one
or two duration tokens, each token a Go-parseable duration — which rules out
the regex's `d` and `w` suffixes, rejected by `time.ParseDuration` — and,
when both durations of a pair are positive, a strictly increasing interval.
Concretely "500ms" yields the constant delay (500ms, 0), "1s-2s" the uniform
interval [1s, 2s), and "2s-1s" is an error. -/
theorem c6_delay_parsing (s : String) (hs : s ≠ "") :
    ((parseRequestDelay s).isOk = true ↔ specDelayOk s = true) ∧
    parseRequestDelay "500ms" = .ok (500000000, 0) ∧
    parseRequestDelay "1s-2s" = .ok (1000000000, 2000000000) ∧
    (parseRequestDelay "2s-1s").isOk = false :=
  ⟨parseRequestDelay_iff_spec s hs, by decide, by decide, by decide⟩

/-- C6 counterexample: "1d" matches the claim's regex grammar (suffix `d` is
in `ns|ms|s|m|h|d|w`), yet the parser rejects it, because the captured group
is re-parsed with Go `time.ParseDuration`, which has no `d` (or `w`) unit. -/
theorem c6_counterexample :
    specDelayGrammar "1d" = true ∧ (parseRequestDelay "1d").isOk = false := by
  constructor
  · decide
  · decide

theorem c6_witness :
    ("500ms" : String) ≠ "" ∧
    ((parseRequestDelay "500ms").isOk = true ↔ specDelayOk "500ms" = true) :=
  ⟨by decide, (c6_delay_parsing "500ms" (by decide)).1⟩

end Dnsbench
